import Mathlib

/-!
# Music-Composer: signal algebra and track composer

A shallow embedding of `AudioSignal.cpp` and `MusicComposer.cpp`.

Conventions of the embedding.

* `Sample` is the 16-bit signed integer of `RIFF.h`.  A sample is carried by an `Int`; every
  store of an `int` result into a `Sample` goes through `narrowToSample`, the reduction modulo
  `2^16` to `[-32768, 32767]`.  `AudioSignal.InRange` says that the stored samples are values
  of the 16-bit type.
* A `std::string` is a `List Char`.
* `int`, `long` and `size_t` quantities are carried by `Int`; division of `int`/`long` values
  truncates toward zero (`Int.tdiv`).  Signed overflow is undefined behaviour in C++.  The `int`
  arithmetic of `AudioSignal::changeDurationTo` and of the synthesizing constructor is embedded
  with its 32-bit range: `AudioSignal.changeDurationTo32` and `AudioSignal.ofSine` return
  `none` when a difference or a product leaves the range of `int` (`fitsInt`), and a value
  stored into an `int` from a wider type is reduced modulo `2^32` (`narrowToInt`).
  `AudioSignal.changeDurationTo` is the same method on unbounded integers; the two agree
  whenever every `int` value of the computation is in range (`changeDurationTo32_eq`).  The
  `long` arithmetic of the other operations is unbounded.
* An operation whose C++ counterpart leaves defined behaviour (an index or an iterator range
  outside the vector, a division by zero, a negative element count) returns `none`.
* `AudioSignal.h`, `NoteMaker.h` and `RIFF.h` are not part of the sources; what the code takes
  from them is collected in `Env`.
* A finite `double` is a rational number.  The conversion of a `double` to `int` truncates
  toward zero (`doubleToInt`); rounding and the functions of `math.h` are the parameter
  `FloatOps` of the synthesizing constructor.
-/

namespace MC

/-! ## Samples -/

/-- Conversion of an `int` to `Sample` (`short`): reduction modulo `2^16` into
`[-32768, 32767]`. -/
def narrowToSample (x : Int) : Int := (x + 32768) % 65536 - 32768

/-- The values of the 16-bit sample type. -/
def Sample.InRange (s : Int) : Prop := -32768 ≤ s ∧ s < 32768

instance (s : Int) : Decidable (Sample.InRange s) := by
  unfold Sample.InRange; infer_instance

/-- The values of the 32-bit type `int`. -/
def fitsInt (x : Int) : Prop := -2147483648 ≤ x ∧ x ≤ 2147483647

instance (x : Int) : Decidable (fitsInt x) := by
  unfold fitsInt; infer_instance

/-- Conversion of a wider integer (`size_t`, `long`) to `int`: reduction modulo `2^32` into
`[-2147483648, 2147483647]`. -/
def narrowToInt (x : Int) : Int := (x + 2147483648) % 4294967296 - 2147483648

/-- The functor `std::plus<int>`. -/
def plusInt (a b : Int) : Int := a + b

/-- The functor `std::multiplies<int>`. -/
def multipliesInt (a b : Int) : Int := a * b

/-- Conversion of a `double` to `int`: truncation toward zero.  A finite `double` is a
rational number. -/
def doubleToInt (x : ℚ) : Int := Int.tdiv x.num x.den

/-! ## AudioSignal -/

/-- The class `AudioSignal`: the metadata `sampleRate` (`int`), `bitsPerSample` (`short`) and
the samples `wave` (`std::vector<Sample>`, each sample carried by an `Int`). -/
structure AudioSignal where
  sampleRate : Int
  bitsPerSample : Int
  wave : List Int
deriving DecidableEq

namespace AudioSignal

/-- Every stored sample is a value of the 16-bit sample type. -/
def InRange (a : AudioSignal) : Prop := ∀ s ∈ a.wave, Sample.InRange s

instance (a : AudioSignal) : Decidable (InRange a) := by
  unfold InRange; infer_instance

/-- Constructor `AudioSignal::AudioSignal(const int sampleRate, const short bitsPerSample)`:
no samples. -/
def mk0 (sampleRate bitsPerSample : Int) : AudioSignal :=
  { sampleRate := sampleRate, bitsPerSample := bitsPerSample, wave := [] }

/-- Operator `AudioSignal::operator+`: the result is a copy of `*this` whose samples are
replaced by `newVector`.  The three branches are those of the source: the common prefix is filled by
`std::transform` with `std::plus<int>` (stored as `Sample`), the rest is copied from the
longer operand. -/
def operatorPlus (self other : AudioSignal) : AudioSignal :=
  if self.wave.length < other.wave.length then
    let temp := other.wave.take self.wave.length
    { self with
      wave := List.zipWith (fun a b => narrowToSample (plusInt a b)) self.wave temp
                ++ other.wave.drop self.wave.length }
  else if other.wave.length < self.wave.length then
    let temp := self.wave.take other.wave.length
    { self with
      wave := List.zipWith (fun a b => narrowToSample (plusInt a b)) other.wave temp
                ++ self.wave.drop other.wave.length }
  else
    { self with
      wave := List.zipWith (fun a b => narrowToSample (plusInt a b)) other.wave self.wave }

/-- Operator `AudioSignal::operator&`: every sample of `other` is pushed at the back of
`wave`; the receiver keeps its metadata. -/
def operatorAnd (self other : AudioSignal) : AudioSignal :=
  { self with wave := self.wave ++ other.wave }

/-- Operator `AudioSignal::operator*`: `std::transform` of `wave` and a vector of copies of
`factor` with `std::multiplies<int>`; both arguments of the functor are converted to `int`,
the product is stored as `Sample`. -/
def operatorMul (self : AudioSignal) (factor : ℚ) : AudioSignal :=
  { self with
    wave := self.wave.map (fun s => narrowToSample (multipliesInt s (doubleToInt factor))) }

/-- Operator `AudioSignal::operator>>`: a copy with `sampleRate * timeInMillis / 1000` zero
samples inserted at the front.  A negative count is no valid element count (`none`). -/
def operatorShr (self : AudioSignal) (timeInMillis : Int) : Option AudioSignal :=
  let numOfSampleToInsert := Int.tdiv (self.sampleRate * timeInMillis) 1000
  if 0 ≤ numOfSampleToInsert then
    some { self with
           wave := List.replicate numOfSampleToInsert.toNat (0 : Int) ++ self.wave }
  else none

/-- Operator `AudioSignal::operator<<`: a copy with the first
`sampleRate * timeInMillis / 1000` samples erased.  The erased range has to lie inside the
vector. -/
def operatorShl (self : AudioSignal) (timeInMillis : Int) : Option AudioSignal :=
  let numOfSampleToErase := Int.tdiv (self.sampleRate * timeInMillis) 1000
  if 0 ≤ numOfSampleToErase ∧ numOfSampleToErase ≤ self.wave.length then
    some { self with wave := self.wave.drop numOfSampleToErase.toNat }
  else none

/-- Method `AudioSignal::duration`: `1000 * wave.size() / sampleRate`.  The quotient is
computed in `size_t`; it is the integer quotient for a positive rate.  A zero rate divides by
zero and a negative rate is outside the data model (`none`). -/
def duration (self : AudioSignal) : Option Int :=
  if 0 < self.sampleRate then some (Int.tdiv (1000 * (self.wave.length : Int)) self.sampleRate)
  else none

/-- Method `AudioSignal::changeDurationTo` on unbounded integers: what the method computes
whenever no `int` value of it leaves the range of `int` (`changeDurationTo32_eq`).  Growth
inserts the range `[begin, begin + n)` of the vector at its front, shrinking erases the last `n`
samples; either range has to lie inside the vector.  The rate is positive as for `duration`. -/
def changeDurationTo (self : AudioSignal) (timeInMillis : Int) : Option AudioSignal :=
  if 0 < self.sampleRate then
    let originalTime := Int.tdiv ((self.wave.length : Int) * 1000) self.sampleRate
    if originalTime < timeInMillis then
      let numOfSampleToChange := Int.tdiv ((timeInMillis - originalTime) * self.sampleRate) 1000
      if 0 ≤ numOfSampleToChange ∧ numOfSampleToChange ≤ self.wave.length then
        some { self with wave := self.wave.take numOfSampleToChange.toNat ++ self.wave }
      else none
    else if originalTime > timeInMillis then
      let numOfSampleToChange := Int.tdiv ((originalTime - timeInMillis) * self.sampleRate) 1000
      if 0 ≤ numOfSampleToChange ∧ numOfSampleToChange ≤ self.wave.length then
        some { self with
               wave := self.wave.take (self.wave.length - numOfSampleToChange.toNat) }
      else none
    else some self
  else none

/-- Method `AudioSignal::changeDurationTo` with the `int` arithmetic of the source.

* `timeInMillis` is an `int` parameter;
* `originalTime` is the `size_t` quotient `wave.size() * 1000 / sampleRate` stored into an
  `int`;
* `(timeInMillis - originalTime) * sampleRate` and `(originalTime - timeInMillis) * sampleRate`
  are `int` expressions: a difference or a product outside the range of `int` is undefined
  (`none`);
* the inserted or erased iterator range has to lie inside the vector, as in
  `changeDurationTo`. -/
def changeDurationTo32 (self : AudioSignal) (timeInMillis : Int) : Option AudioSignal :=
  if 0 < self.sampleRate ∧ fitsInt timeInMillis then
    let originalTime := narrowToInt (Int.tdiv ((self.wave.length : Int) * 1000) self.sampleRate)
    if originalTime < timeInMillis then
      if fitsInt (timeInMillis - originalTime)
          ∧ fitsInt ((timeInMillis - originalTime) * self.sampleRate) then
        let numOfSampleToChange :=
          Int.tdiv ((timeInMillis - originalTime) * self.sampleRate) 1000
        if 0 ≤ numOfSampleToChange ∧ numOfSampleToChange ≤ self.wave.length then
          some { self with wave := self.wave.take numOfSampleToChange.toNat ++ self.wave }
        else none
      else none
    else if originalTime > timeInMillis then
      if fitsInt (originalTime - timeInMillis)
          ∧ fitsInt ((originalTime - timeInMillis) * self.sampleRate) then
        let numOfSampleToChange :=
          Int.tdiv ((originalTime - timeInMillis) * self.sampleRate) 1000
        if 0 ≤ numOfSampleToChange ∧ numOfSampleToChange ≤ self.wave.length then
          some { self with
                 wave := self.wave.take (self.wave.length - numOfSampleToChange.toNat) }
        else none
      else none
    else some self
  else none

/-- The `int` variable `originalTime` of `changeDurationTo`: the `size_t` quotient
`wave.size() * 1000 / sampleRate` stored into an `int`. -/
def originalTime (self : AudioSignal) : Int :=
  narrowToInt (Int.tdiv ((self.wave.length : Int) * 1000) self.sampleRate)

end AudioSignal

/-! ## Collaborators -/

/-- What a `RIFFReader` opened on a file delivers: the two header fields and the samples read
by `operator>>` until the end of the data. -/
structure RIFFReader where
  getSampleRate : Int
  getBitsPerSample : Int
  samples : List Int

/-- The declarations the two source files take from headers that are not part of the sources.

* `defaultSampleRate`, `defaultBitsPerSample`: the metadata of a default-constructed
  `AudioSignal` (the default arguments of `AudioSignal.h`);
* `nm`: the functor of `NoteMaker`, from a note string to its tone;
* `toInt`: `NoteMaker::toInt`;
* `openRIFF`: opening a `RIFFReader` on a file name; `none` when the constructor throws. -/
structure Env where
  defaultSampleRate : Int
  defaultBitsPerSample : Int
  nm : List Char → AudioSignal
  toInt : List Char → Int
  openRIFF : List Char → Option RIFFReader

/-- A default-constructed `AudioSignal` (`AudioSignal emptySignal;`). -/
def Env.emptySignal (env : Env) : AudioSignal :=
  AudioSignal.mk0 env.defaultSampleRate env.defaultBitsPerSample

/-- Constructor `AudioSignal::AudioSignal(RIFFReader&)`. -/
def AudioSignal.ofRIFF (r : RIFFReader) : AudioSignal :=
  { sampleRate := r.getSampleRate, bitsPerSample := r.getBitsPerSample, wave := r.samples }

/-! ## Synthesis -/

/-- The double-precision operations of the synthesizing constructor.  A finite `double` is a
rational number: `round` sends the exact result of an arithmetic operation (or a decimal
literal) to the `double` that is stored, `sin` and `exp` are the functions of `math.h`.  They
belong to the compiler and the C library, not to the sources, and are parameters. -/
structure FloatOps where
  round : ℚ → ℚ
  sin : ℚ → ℚ
  exp : ℚ → ℚ

/-- The value pushed by the loop of the synthesizing constructor at index `i`.

* `currentAmplitude` is `amplitude`, or with `decay` the `int` conversion of
  `amplitude * exp((double) -i / numOfSample / 0.5)`;
* the argument of `sin` is `2 * PI * i / period`; for `numOfSineWave = 0` the period
  `numOfSample / numOfSineWave` is infinite and the quotient is `0`;
* `data = currentAmplitude * sin(...)` converts a `double` to `Sample`: truncation toward zero,
  then the 16-bit reduction for a value outside the sample range. -/
def synthSample (fp : FloatOps) (amplitude numOfSample : Int) (numOfSineWave : ℚ)
    (decay : Bool) (i : Nat) : Int :=
  let PI : ℚ := fp.round (31415926 / 10000000)
  let period : ℚ := fp.round ((numOfSample : ℚ) / numOfSineWave)
  let currentAmplitude : Int :=
    if decay then
      doubleToInt (fp.round ((amplitude : ℚ)
        * fp.exp (fp.round (fp.round (-(i : ℚ) / (numOfSample : ℚ)) / (1 / 2)))))
    else amplitude
  let phase : ℚ :=
    if numOfSineWave = 0 then 0
    else fp.round (fp.round (fp.round (2 * PI) * (i : ℚ)) / period)
  narrowToSample (doubleToInt (fp.round ((currentAmplitude : ℚ) * fp.sin phase)))

/-- The synthesizing constructor
`AudioSignal::AudioSignal(freq, lenInMills, amplitude, sampleRate, bitsPerSample, decay)`: the
loop runs for `i = 0, ..., numOfSample - 1` and pushes one sample per turn.  The products
`freq * lenInMills` and `sampleRate * lenInMills` are `int` expressions: outside the range of
`int` they are undefined (`none`). -/
def AudioSignal.ofSine (fp : FloatOps) (freq lenInMills amplitude sampleRate
    bitsPerSample : Int) (decay : Bool) : Option AudioSignal :=
  if fitsInt (freq * lenInMills) ∧ fitsInt (sampleRate * lenInMills) then
    let numOfSineWave : ℚ := ((Int.tdiv (freq * lenInMills) 1000 : Int) : ℚ)
    let numOfSample : Int := Int.tdiv (sampleRate * lenInMills) 1000
    some { sampleRate := sampleRate, bitsPerSample := bitsPerSample,
           wave := (List.range numOfSample.toNat).map
             (synthSample fp amplitude numOfSample numOfSineWave decay) }
  else none

/-! ## MusicComposer -/

/-- The free function `loadWaveFile`. -/
def loadWaveFile (env : Env) (fileName : List Char) : Option AudioSignal :=
  (env.openRIFF fileName).map AudioSignal.ofRIFF

/-- The free function `addEcho`.  The factor handed to `operator*` is the `int` expression
`-1/4` converted to `double`. -/
def addEcho (i : Int) (music : AudioSignal) : Option AudioSignal :=
  match music.operatorShr i with
  | none => none
  | some newMusic => some (newMusic.operatorMul ((Int.tdiv (-1) 4 : Int) : ℚ))

/-- The durations pushed into `musicDuration` by the `for_each` of `shortestDuration` and
`longestDuration`: each `long` returned by `duration` is stored into a `std::vector<int>`. -/
def musicDuration : List AudioSignal → Option (List Int)
  | [] => some []
  | music :: rest =>
    match music.duration, musicDuration rest with
    | some d, some ds => some (narrowToInt d :: ds)
    | _, _ => none

/-- Value `*std::min_element(first, last)`; dereferencing the end iterator of an empty range is
undefined. -/
def minElement : List Int → Option Int
  | [] => none
  | x :: xs => some (xs.foldl min x)

/-- Value `*std::max_element(first, last)`. -/
def maxElement : List Int → Option Int
  | [] => none
  | x :: xs => some (xs.foldl max x)

/-- The free function `shortestDuration`. -/
def shortestDuration (musicTrack : List AudioSignal) : Option Int :=
  match musicDuration musicTrack with
  | none => none
  | some ds => minElement ds

/-- The free function `longestDuration`. -/
def longestDuration (musicTrack : List AudioSignal) : Option Int :=
  match musicDuration musicTrack with
  | none => none
  | some ds => maxElement ds

/-- Access `v[i]` for an `int` index: defined inside the vector only. -/
def vectorAt {α : Type} (v : List α) (i : Int) : Option α :=
  if 0 ≤ i then v[i.toNat]? else none

/-- Assignment `v[i] = x` for an `int` index: defined inside the vector only. -/
def vectorSet {α : Type} (v : List α) (i : Int) (x : α) : Option (List α) :=
  if 0 ≤ i ∧ i < v.length then some (v.set i.toNat x) else none

/-- Call `v.resize(n)` for an `int` argument: the first `n` elements are kept, missing ones are
value-initialised.  A negative `n` is no valid size. -/
def vectorResize {α : Type} (v : List α) (n : Int) (dflt : α) : Option (List α) :=
  if 0 ≤ n then some (v.take n.toNat ++ List.replicate (n.toNat - v.length) dflt) else none

/-- The data members of the class `MusicComposer` (`nm` is part of `Env`). -/
structure MusicComposer where
  music : AudioSignal
  musicTrack : List AudioSignal
  currentTrack : Int
deriving DecidableEq

namespace MusicComposer

/-- Constructor `MusicComposer::MusicComposer()`: `music` is default-constructed, one empty
signal is pushed to `musicTrack`, `currentTrack` is initialised to `0`. -/
def new (env : Env) : MusicComposer :=
  { music := env.emptySignal, musicTrack := [env.emptySignal], currentTrack := 0 }

/-- Method `MusicComposer::getMusic`: the state after the call; the reference returned is its
`music`. -/
def getMusic (env : Env) (mc : MusicComposer) : MusicComposer :=
  let newMusic := mc.musicTrack.foldl (fun acc musicInTrack => acc.operatorPlus musicInTrack)
    env.emptySignal
  { mc with music := mc.music.operatorAnd newMusic, musicTrack := [env.emptySignal] }

/-- Operator `MusicComposer::operator()`: the state after the call, `none` when the call
leaves defined behaviour.  `ent.compare(0, 1, "*") != 0` reads `ent.take 1 ≠ "*"`, `ent[1]`
of a one-character string is the terminating null character, `ent.substr(2)` is
`ent.drop 2`. -/
def operatorCall (env : Env) (mc : MusicComposer) (ent : List Char) : Option MusicComposer :=
  let upEnt := ent.map Char.toUpper
  if ent.take 1 ≠ ['*'] then
    let newMusic := env.nm upEnt
    match vectorAt mc.musicTrack mc.currentTrack with
    | none => none
    | some track =>
      match vectorSet mc.musicTrack mc.currentTrack (track.operatorAnd newMusic) with
      | none => none
      | some tracks => some { mc with musicTrack := tracks }
  else
    let c := ent.getD 1 (Char.ofNat 0)
    let arg := ent.drop 2
    if c = 't' then
      match vectorResize mc.musicTrack (env.toInt arg) env.emptySignal with
      | none => none
      | some tracks => some { mc with currentTrack := env.toInt arg - 1, musicTrack := tracks }
    else if c = 'l' then
      match loadWaveFile env arg with
      | none => none
      | some m => some { mc with music := m }
    else if c = 'e' then
      match addEcho (env.toInt arg) mc.music with
      | none => none
      | some m => some { mc with music := m }
    else if c = '~' then
      match vectorAt mc.musicTrack (env.toInt arg - 1), shortestDuration mc.musicTrack with
      | some track, some d =>
        match track.changeDurationTo32 d with
        | none => none
        | some track1 =>
          match vectorSet mc.musicTrack (env.toInt arg - 1) track1 with
          | none => none
          | some tracks => some { mc with musicTrack := tracks }
      | _, _ => none
    else if c = '=' then
      match vectorAt mc.musicTrack (env.toInt arg - 1), longestDuration mc.musicTrack with
      | some track, some d =>
        match track.changeDurationTo32 d with
        | none => none
        | some track1 =>
          match vectorSet mc.musicTrack (env.toInt arg - 1) track1 with
          | none => none
          | some tracks => some { mc with musicTrack := tracks }
      | _, _ => none
    else if c = '.' then
      some (getMusic env mc)
    else some mc

/-- The reference returned by `MusicComposer::operator()`: the member `music`. -/
def operatorCallResult (env : Env) (mc : MusicComposer) (ent : List Char) :
    Option AudioSignal :=
  (operatorCall env mc ent).map (fun mc1 => mc1.music)

/-- The `std::for_each` of `main`: the tokens are processed in order. -/
def processAll (env : Env) : MusicComposer → List (List Char) → Option MusicComposer
  | mc, [] => some mc
  | mc, ent :: rest =>
    match operatorCall env mc ent with
    | none => none
    | some mc1 => processAll env mc1 rest

/-- The composition written by `main`: the tokens are processed, then `getMusic` is called on
the composer and its result is written out. -/
def mainMusic (env : Env) (tokens : List (List Char)) : Option AudioSignal :=
  (processAll env (new env) tokens).map (fun mc => (mc.getMusic env).music)

end MusicComposer

/-! ## Specification-side definitions -/

/-- Sample-wise sum of two sample sequences, the shorter one continued by the tail of the
longer one: the closed form of the samples computed by `AudioSignal.operatorPlus`. -/
def mixWave : List Int → List Int → List Int
  | [], bs => bs
  | a :: as, [] => a :: as
  | a :: as, b :: bs => narrowToSample (a + b) :: mixWave as bs

/-- The number of samples of the longest track (`0` for no track). -/
def longestLength (tracks : List AudioSignal) : Nat :=
  (tracks.map (fun t => t.wave.length)).foldr max 0

/-- The sum of the `k`-th samples of every track that has more than `k` samples. -/
def columnSum (tracks : List AudioSignal) (k : Nat) : Int :=
  ((tracks.filter (fun t => decide (k < t.wave.length))).map (fun t => t.wave.getD k 0)).sum

/-- The mix of all tracks in the words of the specification: as long as the longest track, the
`k`-th sample being the 16-bit-wrapped sum of the `k`-th samples of the tracks that have one. -/
def specMix (tracks : List AudioSignal) : List Int :=
  (List.range (longestLength tracks)).map (fun k => narrowToSample (columnSum tracks k))

/-- The duration of a signal in milliseconds as the specification writes it:
`1000 * len / sampleRate` with integer division. -/
def AudioSignal.millis (A : AudioSignal) : Int :=
  1000 * (A.wave.length : Int) / A.sampleRate

/-- A decimal reading of the number `N` of a control token (`t<N>`, `e<N>`, `~<N>`, `=<N>`):
the leading digits are read, anything after them is ignored.  It stands for `NoteMaker::toInt`
in concrete runs only; in the embedding `NoteMaker::toInt` is the parameter `Env.toInt`. -/
def decimalToInt (s : List Char) : Int :=
  (s.takeWhile Char.isDigit).foldl (fun acc c => 10 * acc + ((c.toNat : Int) - 48)) 0

/-- Floating-point operations for concrete runs: exact arithmetic, and the first terms of the
series of `sin` and `exp`. -/
def sampleFloatOps : FloatOps :=
  { round := fun x => x,
    sin := fun x => x - x ^ 3 / 6,
    exp := fun x => 1 + x + x ^ 2 / 2 }

/-- An environment for concrete runs: signals default to 8000 Hz and 16 bits, every note is
the same four-sample tone, numbers are read in decimal, no file can be opened. -/
def sampleEnv : Env :=
  { defaultSampleRate := 8000, defaultBitsPerSample := 16,
    nm := fun _ => AudioSignal.mk 8000 16 [100, 200, -100, -200],
    toInt := decimalToInt, openRIFF := fun _ => none }

/-! ## Sample arithmetic -/

theorem narrowToSample_inRange (x : Int) : Sample.InRange (narrowToSample x) := by
  unfold Sample.InRange narrowToSample
  omega

theorem narrowToSample_of_inRange {s : Int} (h : Sample.InRange s) : narrowToSample s = s := by
  unfold Sample.InRange at h
  unfold narrowToSample
  omega

theorem narrowToSample_add_left (x y : Int) :
    narrowToSample (narrowToSample x + y) = narrowToSample (x + y) := by
  unfold narrowToSample
  omega

theorem narrowToSample_zero : narrowToSample 0 = 0 := by decide

/-! ## The samples of a mix -/

theorem mixWave_nil_right (as : List Int) : mixWave as [] = as := by
  cases as <;> rfl

theorem mixWave_comm (as bs : List Int) : mixWave as bs = mixWave bs as := by
  induction as generalizing bs with
  | nil => simp [mixWave, mixWave_nil_right]
  | cons a as ih =>
    cases bs with
    | nil => rfl
    | cons b bs => simp [mixWave, ih bs, add_comm]

theorem mixWave_length (as bs : List Int) :
    (mixWave as bs).length = max as.length bs.length := by
  induction as generalizing bs with
  | nil => simp [mixWave]
  | cons a as ih =>
    cases bs with
    | nil => simp [mixWave]
    | cons b bs => simp [mixWave, ih bs, Nat.succ_max_succ]

theorem mixWave_getD (as bs : List Int) (has : ∀ s ∈ as, Sample.InRange s)
    (hbs : ∀ s ∈ bs, Sample.InRange s) (k : Nat) :
    (mixWave as bs).getD k 0 = narrowToSample (as.getD k 0 + bs.getD k 0) := by
  induction as generalizing bs k with
  | nil =>
    simp only [mixWave, List.getD_nil, zero_add]
    by_cases hk : k < bs.length
    · rw [List.getD_eq_getElem _ _ hk]
      exact (narrowToSample_of_inRange (hbs _ (List.getElem_mem _))).symm
    · rw [List.getD_eq_default _ _ (by omega)]
      exact narrowToSample_zero.symm
  | cons a as ih =>
    cases bs with
    | nil =>
      simp only [mixWave, List.getD_nil, add_zero]
      by_cases hk : k < (a :: as).length
      · rw [List.getD_eq_getElem _ _ hk]
        exact (narrowToSample_of_inRange (has _ (List.getElem_mem _))).symm
      · rw [List.getD_eq_default _ _ (by omega)]
        exact narrowToSample_zero.symm
    | cons b bs =>
      cases k with
      | zero => simp [mixWave]
      | succ k =>
        simp only [mixWave, List.getD_cons_succ]
        exact ih bs (fun s hs => has s (List.mem_cons_of_mem _ hs))
          (fun s hs => hbs s (List.mem_cons_of_mem _ hs)) k

theorem mixWave_inRange (as bs : List Int) (has : ∀ s ∈ as, Sample.InRange s)
    (hbs : ∀ s ∈ bs, Sample.InRange s) : ∀ s ∈ mixWave as bs, Sample.InRange s := by
  induction as generalizing bs with
  | nil => simpa [mixWave] using hbs
  | cons a as ih =>
    cases bs with
    | nil => simpa [mixWave] using has
    | cons b bs =>
      intro s hs
      simp only [mixWave, List.mem_cons] at hs
      rcases hs with rfl | hs
      · exact narrowToSample_inRange _
      · exact ih bs (fun s hs => has s (List.mem_cons_of_mem _ hs))
          (fun s hs => hbs s (List.mem_cons_of_mem _ hs)) s hs

theorem plusWave_eq_mixWave (w o : List Int) :
    (if w.length < o.length then
        List.zipWith (fun a b => narrowToSample (plusInt a b)) w (o.take w.length)
          ++ o.drop w.length
      else if o.length < w.length then
        List.zipWith (fun a b => narrowToSample (plusInt a b)) o (w.take o.length)
          ++ w.drop o.length
      else List.zipWith (fun a b => narrowToSample (plusInt a b)) o w) = mixWave w o := by
  induction w generalizing o with
  | nil => cases o <;> simp [mixWave]
  | cons a w ih =>
    cases o with
    | nil => simp [mixWave]
    | cons b o =>
      rw [mixWave, ← ih o]
      simp only [List.length_cons, Nat.add_lt_add_iff_right, List.take_succ_cons,
        List.zipWith_cons_cons, List.drop_succ_cons, plusInt]
      split_ifs <;> simp [add_comm]

theorem AudioSignal.operatorPlus_wave (A B : AudioSignal) :
    (A.operatorPlus B).wave = mixWave A.wave B.wave := by
  rw [← plusWave_eq_mixWave]
  unfold AudioSignal.operatorPlus
  split_ifs <;> rfl

theorem AudioSignal.operatorPlus_sampleRate (A B : AudioSignal) :
    (A.operatorPlus B).sampleRate = A.sampleRate := by
  unfold AudioSignal.operatorPlus
  split_ifs <;> rfl

theorem AudioSignal.operatorPlus_bitsPerSample (A B : AudioSignal) :
    (A.operatorPlus B).bitsPerSample = A.bitsPerSample := by
  unfold AudioSignal.operatorPlus
  split_ifs <;> rfl

theorem AudioSignal.operatorPlus_inRange (A B : AudioSignal) (hA : A.InRange)
    (hB : B.InRange) : (A.operatorPlus B).InRange := by
  unfold AudioSignal.InRange
  rw [AudioSignal.operatorPlus_wave]
  exact mixWave_inRange _ _ hA hB

/-! ## Mixing: `AudioSignal::operator+` -/

theorem list_ext_getD {l₁ l₂ : List Int} (hlen : l₁.length = l₂.length)
    (h : ∀ k, k < l₁.length → l₁.getD k 0 = l₂.getD k 0) : l₁ = l₂ := by
  apply List.ext_getElem hlen
  intro k h₁ h₂
  have := h k h₁
  rwa [List.getD_eq_getElem _ _ h₁, List.getD_eq_getElem _ _ h₂] at this

/-- Claim C4.  The mix `A + B` has exactly `max (len A) (len B)` samples, and below that
length its `k`-th sample is `a_k + b_k` reduced to the 16-bit sample type, a missing sample of
the shorter operand counting as `0`.  The operands are values of the embedding and are not
changed by the call. -/
theorem operatorPlus_mix_definition (A B : AudioSignal) (hA : A.InRange) (hB : B.InRange) :
    (A.operatorPlus B).wave.length = max A.wave.length B.wave.length ∧
    ∀ k, k < max A.wave.length B.wave.length →
      (A.operatorPlus B).wave.getD k 0
        = narrowToSample (A.wave.getD k 0 + B.wave.getD k 0) := by
  rw [AudioSignal.operatorPlus_wave]
  exact ⟨mixWave_length _ _, fun k _ => mixWave_getD _ _ hA hB k⟩

theorem operatorPlus_mix_definition_witness :
    (AudioSignal.mk 8000 16 [32767, -5, 7]).InRange ∧ (AudioSignal.mk 8000 16 [1, 2]).InRange ∧
    ((AudioSignal.mk 8000 16 [32767, -5, 7]).operatorPlus
        (AudioSignal.mk 8000 16 [1, 2])).wave.length = 3 ∧
    ((AudioSignal.mk 8000 16 [32767, -5, 7]).operatorPlus
        (AudioSignal.mk 8000 16 [1, 2])).wave.getD 0 0 = -32768 ∧
    ((AudioSignal.mk 8000 16 [32767, -5, 7]).operatorPlus
        (AudioSignal.mk 8000 16 [1, 2])).wave.getD 2 0 = 7 :=
  ⟨by decide, by decide,
    (operatorPlus_mix_definition (AudioSignal.mk 8000 16 [32767, -5, 7])
      (AudioSignal.mk 8000 16 [1, 2]) (by decide) (by decide)).1.trans (by decide),
    ((operatorPlus_mix_definition (AudioSignal.mk 8000 16 [32767, -5, 7])
      (AudioSignal.mk 8000 16 [1, 2]) (by decide) (by decide)).2 0 (by decide)).trans
      (by decide),
    ((operatorPlus_mix_definition (AudioSignal.mk 8000 16 [32767, -5, 7])
      (AudioSignal.mk 8000 16 [1, 2]) (by decide) (by decide)).2 2 (by decide)).trans
      (by decide)⟩

/-- Claim C5.  Mixing is commutative sample-wise: `A + B` and `B + A` have the same sample
sequence, for operands of any lengths and any sample values. -/
theorem operatorPlus_wave_comm (A B : AudioSignal) :
    (A.operatorPlus B).wave = (B.operatorPlus A).wave := by
  rw [AudioSignal.operatorPlus_wave, AudioSignal.operatorPlus_wave, mixWave_comm]

/-- Claim C6, as stated, fails: with an empty `E` of other metadata, `E + A` is not `A`. -/
theorem empty_left_operand_metadata_counterexample :
    (AudioSignal.mk 44100 8 []).wave = [] ∧
    (AudioSignal.mk 44100 8 []).operatorPlus (AudioSignal.mk 8000 16 [1, 2])
      ≠ AudioSignal.mk 8000 16 [1, 2] := by
  decide

/-- Claim C6, amended.  For an empty `E`, `A + E` is `A` as a whole signal, and `E + A` has
the samples of `A` with the sample rate and bit depth of `E`. -/
theorem operatorPlus_empty (A E : AudioSignal) (hE : E.wave = []) :
    A.operatorPlus E = A ∧
    (E.operatorPlus A).wave = A.wave ∧
    (E.operatorPlus A).sampleRate = E.sampleRate ∧
    (E.operatorPlus A).bitsPerSample = E.bitsPerSample := by
  refine ⟨?_, ?_, AudioSignal.operatorPlus_sampleRate _ _,
    AudioSignal.operatorPlus_bitsPerSample _ _⟩
  · have hw : (A.operatorPlus E).wave = A.wave := by
      rw [AudioSignal.operatorPlus_wave, hE, mixWave_nil_right]
    have hr := AudioSignal.operatorPlus_sampleRate A E
    have hb := AudioSignal.operatorPlus_bitsPerSample A E
    cases hAE : A.operatorPlus E
    cases A
    simp_all
  · rw [AudioSignal.operatorPlus_wave, hE]
    rfl

theorem operatorPlus_empty_witness :
    (AudioSignal.mk 44100 8 []).wave = [] ∧
    (AudioSignal.mk 8000 16 [1, 2]).operatorPlus (AudioSignal.mk 44100 8 [])
      = AudioSignal.mk 8000 16 [1, 2] ∧
    ((AudioSignal.mk 44100 8 []).operatorPlus (AudioSignal.mk 8000 16 [1, 2])).wave
      = (AudioSignal.mk 8000 16 [1, 2]).wave ∧
    ((AudioSignal.mk 44100 8 []).operatorPlus (AudioSignal.mk 8000 16 [1, 2])).sampleRate
      = (AudioSignal.mk 44100 8 []).sampleRate ∧
    ((AudioSignal.mk 44100 8 []).operatorPlus (AudioSignal.mk 8000 16 [1, 2])).bitsPerSample
      = (AudioSignal.mk 44100 8 []).bitsPerSample :=
  ⟨rfl, operatorPlus_empty (AudioSignal.mk 8000 16 [1, 2]) (AudioSignal.mk 44100 8 []) rfl⟩

/-! ## Flush: `MusicComposer::getMusic` -/

theorem columnSum_nil (k : Nat) : columnSum [] k = 0 := rfl

theorem columnSum_cons (t : AudioSignal) (ts : List AudioSignal) (k : Nat) :
    columnSum (t :: ts) k = t.wave.getD k 0 + columnSum ts k := by
  unfold columnSum
  by_cases hk : k < t.wave.length
  · simp [List.filter_cons, hk]
  · have h0 : t.wave.getD k 0 = 0 := List.getD_eq_default _ _ (by omega)
    rw [h0]
    simp [List.filter_cons, hk]

theorem longestLength_cons (t : AudioSignal) (ts : List AudioSignal) :
    longestLength (t :: ts) = max t.wave.length (longestLength ts) := rfl

theorem foldl_operatorPlus (ts : List AudioSignal) (acc : AudioSignal) (hacc : acc.InRange)
    (hts : ∀ t ∈ ts, t.InRange) :
    (ts.foldl (fun a t => a.operatorPlus t) acc).wave.length
        = max acc.wave.length (longestLength ts) ∧
    (∀ k, (ts.foldl (fun a t => a.operatorPlus t) acc).wave.getD k 0
        = narrowToSample (acc.wave.getD k 0 + columnSum ts k)) ∧
    (ts.foldl (fun a t => a.operatorPlus t) acc).sampleRate = acc.sampleRate ∧
    (ts.foldl (fun a t => a.operatorPlus t) acc).bitsPerSample = acc.bitsPerSample := by
  induction ts generalizing acc with
  | nil =>
    refine ⟨by simp [longestLength], fun k => ?_, rfl, rfl⟩
    simp only [List.foldl_nil, columnSum_nil, add_zero]
    by_cases hk : k < acc.wave.length
    · rw [List.getD_eq_getElem _ _ hk]
      exact (narrowToSample_of_inRange (hacc _ (List.getElem_mem _))).symm
    · rw [List.getD_eq_default _ _ (by omega)]
      exact narrowToSample_zero.symm
  | cons t ts ih =>
    have ht : t.InRange := hts t (List.mem_cons_self _ _)
    have hrest : ∀ u ∈ ts, u.InRange := fun u hu => hts u (List.mem_cons_of_mem _ hu)
    obtain ⟨hlen, hget, hsr, hbps⟩ :=
      ih (acc.operatorPlus t) (AudioSignal.operatorPlus_inRange _ _ hacc ht) hrest
    refine ⟨?_, fun k => ?_, ?_, ?_⟩
    · rw [List.foldl_cons, hlen, AudioSignal.operatorPlus_wave, mixWave_length,
        longestLength_cons, max_assoc]
    · rw [List.foldl_cons, hget, AudioSignal.operatorPlus_wave, mixWave_getD _ _ hacc ht,
        narrowToSample_add_left, columnSum_cons, add_assoc]
    · rw [List.foldl_cons, hsr, AudioSignal.operatorPlus_sampleRate]
    · rw [List.foldl_cons, hbps, AudioSignal.operatorPlus_bitsPerSample]

theorem foldl_operatorPlus_eq_specMix (env : Env) (ts : List AudioSignal)
    (hts : ∀ t ∈ ts, t.InRange) :
    (ts.foldl (fun a t => a.operatorPlus t) env.emptySignal).wave = specMix ts := by
  have hempty : env.emptySignal.InRange := by
    intro s hs
    simp [Env.emptySignal, AudioSignal.mk0] at hs
  obtain ⟨hlen, hget, -, -⟩ := foldl_operatorPlus ts env.emptySignal hempty hts
  have hlen2 : (ts.foldl (fun a t => a.operatorPlus t) env.emptySignal).wave.length
      = longestLength ts := by
    rw [hlen]
    simp [Env.emptySignal, AudioSignal.mk0]
  apply list_ext_getD
  · rw [hlen2]
    simp [specMix]
  · intro k hk
    rw [hlen2] at hk
    rw [hget k]
    have hk2 : k < (specMix ts).length := by simpa [specMix] using hk
    rw [List.getD_eq_getElem _ _ hk2]
    simp [specMix, Env.emptySignal, AudioSignal.mk0]

/-- Claim C1.  A flush appends to `overall` the mix of all current tracks: the mix is as long
as the longest track and its `k`-th sample is the 16-bit-wrapped sum of the `k`-th samples of
the tracks with more than `k` samples.  Afterwards `tracks` is exactly one empty signal, and
`overall` keeps its sample rate and bit depth. -/
theorem getMusic_appends_mix (env : Env) (mc : MusicComposer)
    (h : ∀ t ∈ mc.musicTrack, t.InRange) :
    (mc.getMusic env).music.wave = mc.music.wave ++ specMix mc.musicTrack ∧
    (specMix mc.musicTrack).length = longestLength mc.musicTrack ∧
    (∀ k, k < longestLength mc.musicTrack →
      (specMix mc.musicTrack).getD k 0 = narrowToSample (columnSum mc.musicTrack k)) ∧
    (mc.getMusic env).musicTrack = [env.emptySignal] ∧
    env.emptySignal.wave = [] ∧
    (mc.getMusic env).music.sampleRate = mc.music.sampleRate ∧
    (mc.getMusic env).music.bitsPerSample = mc.music.bitsPerSample := by
  refine ⟨?_, by simp [specMix], fun k hk => ?_, rfl, rfl, rfl, rfl⟩
  · show mc.music.wave ++ _ = _
    rw [foldl_operatorPlus_eq_specMix env mc.musicTrack h]
  · have hk2 : k < (specMix mc.musicTrack).length := by simpa [specMix] using hk
    rw [List.getD_eq_getElem _ _ hk2]
    simp [specMix]

theorem getMusic_appends_mix_witness :
    (∀ t ∈ [AudioSignal.mk 8000 16 [32767, -5, 7], AudioSignal.mk 8000 16 [1, 2]],
        t.InRange) ∧
    ((MusicComposer.mk (AudioSignal.mk 8000 16 [9])
        [AudioSignal.mk 8000 16 [32767, -5, 7], AudioSignal.mk 8000 16 [1, 2]] 1).getMusic
          sampleEnv).music.wave = [9, -32768, -3, 7] :=
  ⟨by decide,
    (getMusic_appends_mix sampleEnv
      (MusicComposer.mk (AudioSignal.mk 8000 16 [9])
        [AudioSignal.mk 8000 16 [32767, -5, 7], AudioSignal.mk 8000 16 [1, 2]] 1)
      (by decide)).1.trans (by decide)⟩

/-- A flush leaves `currentTrack` as it finds it: `getMusic` has no assignment to it. -/
theorem getMusic_currentTrack (env : Env) (mc : MusicComposer) :
    (mc.getMusic env).currentTrack = mc.currentTrack := rfl

/-! ## Steps of `MusicComposer::operator()` -/

theorem vectorAt_eq_none {α : Type} (v : List α) (i : Int)
    (h : ¬ (0 ≤ i ∧ i < v.length)) : vectorAt v i = none := by
  unfold vectorAt
  split_ifs with h0
  · rw [List.getElem?_eq_none_iff]
    omega
  · rfl

/-- A tone token processed with `currentTrack` outside `musicTrack` indexes the vector out of
bounds. -/
theorem operatorCall_tone_out_of_bounds (env : Env) (mc : MusicComposer) (ent : List Char)
    (htone : ent.take 1 ≠ ['*'])
    (hidx : ¬ (0 ≤ mc.currentTrack ∧ mc.currentTrack < mc.musicTrack.length)) :
    MusicComposer.operatorCall env mc ent = none := by
  unfold MusicComposer.operatorCall
  simp only [htone, ne_eq, not_false_eq_true, if_true, vectorAt_eq_none _ _ hidx]

theorem operatorCall_t2 (env : Env) (mc : MusicComposer) (h2 : env.toInt ['2'] = 2) :
    MusicComposer.operatorCall env mc ['*', 't', '2']
      = some { mc with
               currentTrack := 1,
               musicTrack := mc.musicTrack.take 2
                 ++ List.replicate (2 - mc.musicTrack.length) env.emptySignal } := by
  simp [MusicComposer.operatorCall, vectorResize, h2]

theorem operatorCall_flush (env : Env) (mc : MusicComposer) :
    MusicComposer.operatorCall env mc ['*', '.'] = some (mc.getMusic env) := by
  simp [MusicComposer.operatorCall]

/-- Claim C2 fails on the code.  From a fresh composer, `*t2` followed by the flush `*.` ends
with `currentTrack = 1` (and a single track), not `0`, in every environment whose `toInt`
reads `2` as 2. -/
theorem flush_after_t2_currentTrack (env : Env) (h2 : env.toInt ['2'] = 2) :
    (MusicComposer.processAll env (MusicComposer.new env) [['*', 't', '2'], ['*', '.']]).map
      (fun mc => (mc.currentTrack, mc.musicTrack.length)) = some (1, 1) := by
  simp only [MusicComposer.processAll, operatorCall_t2 env _ h2, operatorCall_flush]
  rfl

theorem flush_after_t2_currentTrack_witness :
    sampleEnv.toInt ['2'] = 2 ∧
    (MusicComposer.processAll sampleEnv (MusicComposer.new sampleEnv)
        [['*', 't', '2'], ['*', '.']]).map
      (fun mc => (mc.currentTrack, mc.musicTrack.length)) = some (1, 1) :=
  ⟨by decide, flush_after_t2_currentTrack sampleEnv (by decide)⟩

/-- Claim C3 fails on the code.  From a fresh composer, after `*t2` and `*.` the state has
`currentTrack = 1` with a single track, so the bound `currentTrack < len(tracks)` is broken
when the tone token `C4` arrives, and processing it indexes `musicTrack` out of bounds. -/
theorem tone_after_flush_out_of_bounds (env : Env) (h2 : env.toInt ['2'] = 2) :
    (∃ mc, MusicComposer.processAll env (MusicComposer.new env) [['*', 't', '2'], ['*', '.']]
        = some mc ∧
      mc.currentTrack = 1 ∧ mc.musicTrack.length = 1 ∧
      ¬ (0 ≤ mc.currentTrack ∧ mc.currentTrack < mc.musicTrack.length) ∧
      MusicComposer.operatorCall env mc ['C', '4'] = none) ∧
    MusicComposer.processAll env (MusicComposer.new env)
        [['*', 't', '2'], ['*', '.'], ['C', '4']] = none := by
  have hidx : ∀ mc : MusicComposer, mc.currentTrack = 1 → mc.musicTrack.length = 1 →
      ¬ (0 ≤ mc.currentTrack ∧ mc.currentTrack < mc.musicTrack.length) := by
    intro mc h1 h2
    rw [h1, h2]
    decide
  simp only [MusicComposer.processAll, operatorCall_t2 env _ h2, operatorCall_flush]
  refine ⟨⟨_, rfl, rfl, rfl, ?_, ?_⟩, ?_⟩
  · exact hidx _ rfl rfl
  · apply operatorCall_tone_out_of_bounds env _ _ (by decide)
    exact hidx _ rfl rfl
  · rw [operatorCall_tone_out_of_bounds env (MusicComposer.getMusic env _) _ (by decide)]
    exact hidx _ rfl rfl

theorem tone_after_flush_out_of_bounds_witness :
    sampleEnv.toInt ['2'] = 2 ∧
    MusicComposer.processAll sampleEnv (MusicComposer.new sampleEnv)
        [['*', 't', '2'], ['*', '.'], ['C', '4']] = none :=
  ⟨by decide, (tone_after_flush_out_of_bounds sampleEnv (by decide)).2⟩

/-! ## Retime: `AudioSignal::changeDurationTo` -/

theorem originalTime_eq (A : AudioSignal) (hr : 0 < A.sampleRate) :
    Int.tdiv ((A.wave.length : Int) * 1000) A.sampleRate
      = 1000 * (A.wave.length : Int) / A.sampleRate := by
  rw [Int.tdiv_eq_ediv (by positivity) hr.le, mul_comm]

theorem changeDurationTo_grow (A : AudioSignal) (T : Int) (hr : 0 < A.sampleRate)
    (hlt : 1000 * (A.wave.length : Int) / A.sampleRate < T)
    (hpre : ((T - 1000 * (A.wave.length : Int) / A.sampleRate) * A.sampleRate / 1000).toNat
      ≤ A.wave.length) :
    A.changeDurationTo T = some { A with
      wave := A.wave.take
          ((T - 1000 * (A.wave.length : Int) / A.sampleRate) * A.sampleRate / 1000).toNat
        ++ A.wave } := by
  have hpos : 0 ≤ (T - 1000 * (A.wave.length : Int) / A.sampleRate) * A.sampleRate :=
    mul_nonneg (by omega) hr.le
  have hd : 0 ≤ (T - 1000 * (A.wave.length : Int) / A.sampleRate) * A.sampleRate / 1000 :=
    Int.ediv_nonneg hpos (by norm_num)
  unfold AudioSignal.changeDurationTo
  simp only [hr, if_true, originalTime_eq A hr, hlt]
  rw [Int.tdiv_eq_ediv hpos (by norm_num)]
  rw [if_pos ⟨hd, by omega⟩]

theorem changeDurationTo_shrink (A : AudioSignal) (T : Int) (hr : 0 < A.sampleRate)
    (hgt : T < 1000 * (A.wave.length : Int) / A.sampleRate)
    (hpre : ((1000 * (A.wave.length : Int) / A.sampleRate - T) * A.sampleRate / 1000).toNat
      ≤ A.wave.length) :
    A.changeDurationTo T = some { A with
      wave := A.wave.take (A.wave.length -
        ((1000 * (A.wave.length : Int) / A.sampleRate - T) * A.sampleRate / 1000).toNat) } := by
  have hpos : 0 ≤ (1000 * (A.wave.length : Int) / A.sampleRate - T) * A.sampleRate :=
    mul_nonneg (by omega) hr.le
  have hd : 0 ≤ (1000 * (A.wave.length : Int) / A.sampleRate - T) * A.sampleRate / 1000 :=
    Int.ediv_nonneg hpos (by norm_num)
  unfold AudioSignal.changeDurationTo
  simp only [hr, if_true, originalTime_eq A hr]
  rw [if_neg (by omega), if_pos (by omega)]
  rw [Int.tdiv_eq_ediv hpos (by norm_num)]
  rw [if_pos ⟨hd, by omega⟩]

theorem changeDurationTo_same (A : AudioSignal) (T : Int) (hr : 0 < A.sampleRate)
    (heq : 1000 * (A.wave.length : Int) / A.sampleRate = T) :
    A.changeDurationTo T = some A := by
  unfold AudioSignal.changeDurationTo
  simp only [hr, if_true, originalTime_eq A hr]
  rw [if_neg (by omega), if_neg (by omega)]

theorem changeDurationTo_same_wave (A : AudioSignal) (w : List Int) (T : Int)
    (hr : 0 < A.sampleRate) (heq : 1000 * (w.length : Int) / A.sampleRate = T) :
    AudioSignal.changeDurationTo { A with wave := w } T = some { A with wave := w } :=
  changeDurationTo_same { A with wave := w } T hr heq

theorem changeDurationTo_metadata (A A1 : AudioSignal) (T : Int)
    (h : A.changeDurationTo T = some A1) :
    A1.sampleRate = A.sampleRate ∧ A1.bitsPerSample = A.bitsPerSample := by
  unfold AudioSignal.changeDurationTo at h
  simp only [] at h
  split_ifs at h <;> (injection h with h; subst h; exact ⟨rfl, rfl⟩)

/-- In the shrink case with a target `T ≥ 0` the removal count never exceeds the length. -/
theorem shrink_count_le_length (A : AudioSignal) (T : Int) (hr : 0 < A.sampleRate)
    (hT : 0 ≤ T) :
    ((1000 * (A.wave.length : Int) / A.sampleRate - T) * A.sampleRate / 1000).toNat
      ≤ A.wave.length := by
  rw [Int.toNat_le]
  have h1 : 1000 * (A.wave.length : Int) / A.sampleRate * A.sampleRate
      ≤ 1000 * (A.wave.length : Int) := Int.ediv_mul_le _ (by omega)
  have h2 : (1000 * (A.wave.length : Int) / A.sampleRate - T) * A.sampleRate
      ≤ 1000 * (A.wave.length : Int) := by nlinarith
  have h3 := Int.ediv_le_ediv (by norm_num : (0 : Int) < 1000) h2
  have h4 : 1000 * (A.wave.length : Int) / 1000 = (A.wave.length : Int) := by omega
  omega

theorem duration_after_exact_change (r cur T : Int) (n n1 : Nat) (hr : 0 < r)
    (hcur : 1000 * (n : Int) / r = cur)
    (hn1 : 1000 * (n1 : Int) = 1000 * (n : Int) + (T - cur) * r) :
    1000 * (n1 : Int) / r = T := by
  rw [hn1, Int.add_mul_ediv_right _ _ (by omega), hcur]
  omega

theorem changeDurationTo_exact (A : AudioSignal) (T : Int) (hr : 0 < A.sampleRate)
    (hT : 0 ≤ T)
    (hdvd : (1000 : Int) ∣ (T - 1000 * (A.wave.length : Int) / A.sampleRate) * A.sampleRate)
    (hpre : 1000 * (A.wave.length : Int) / A.sampleRate < T →
      ((T - 1000 * (A.wave.length : Int) / A.sampleRate) * A.sampleRate / 1000).toNat
        ≤ A.wave.length) :
    ∃ w : List Int, A.changeDurationTo T = some { A with wave := w } ∧
      1000 * (w.length : Int) / A.sampleRate = T := by
  rcases lt_trichotomy (1000 * (A.wave.length : Int) / A.sampleRate) T with hlt | heq | hgt
  · refine ⟨_, changeDurationTo_grow A T hr hlt (hpre hlt), ?_⟩
    have hpos : 0 ≤ (T - 1000 * (A.wave.length : Int) / A.sampleRate) * A.sampleRate :=
      mul_nonneg (by omega) hr.le
    have hd : 0 ≤ (T - 1000 * (A.wave.length : Int) / A.sampleRate) * A.sampleRate / 1000 :=
      Int.ediv_nonneg hpos (by norm_num)
    have hexact := Int.ediv_mul_cancel hdvd
    apply duration_after_exact_change A.sampleRate
      (1000 * (A.wave.length : Int) / A.sampleRate) T A.wave.length _ hr rfl
    have hlen := hpre hlt
    simp only [List.length_append, List.length_take, Nat.min_eq_left hlen]
    push_cast
    rw [Int.toNat_of_nonneg hd]
    omega
  · exact ⟨A.wave, changeDurationTo_same A T hr heq, heq⟩
  · have hle := shrink_count_le_length A T hr hT
    refine ⟨_, changeDurationTo_shrink A T hr hgt hle, ?_⟩
    have hpos : 0 ≤ (1000 * (A.wave.length : Int) / A.sampleRate - T) * A.sampleRate :=
      mul_nonneg (by omega) hr.le
    have hd : 0 ≤ (1000 * (A.wave.length : Int) / A.sampleRate - T) * A.sampleRate / 1000 :=
      Int.ediv_nonneg hpos (by norm_num)
    have hdvd2 : (1000 : Int)
        ∣ (1000 * (A.wave.length : Int) / A.sampleRate - T) * A.sampleRate := by
      have := (Int.dvd_neg).2 hdvd
      rwa [← neg_mul, neg_sub] at this
    have hexact := Int.ediv_mul_cancel hdvd2
    apply duration_after_exact_change A.sampleRate
      (1000 * (A.wave.length : Int) / A.sampleRate) T A.wave.length _ hr rfl
    simp only [List.length_take]
    rw [Nat.min_eq_left (Nat.sub_le _ _)]
    push_cast [hle]
    rw [Int.toNat_of_nonneg hd]
    have hneg : (T - 1000 * (A.wave.length : Int) / A.sampleRate) * A.sampleRate
        = -((1000 * (A.wave.length : Int) / A.sampleRate - T) * A.sampleRate) := by ring
    omega

/-! ## Retime with the `int` arithmetic of the source -/

theorem narrowToInt_of_fits {x : Int} (h : fitsInt x) : narrowToInt x = x := by
  unfold fitsInt at h
  unfold narrowToInt
  omega

theorem millis_nonneg (A : AudioSignal) (hr : 0 < A.sampleRate) : 0 ≤ A.millis :=
  Int.ediv_nonneg (by positivity) hr.le

theorem originalTime32_eq (A : AudioSignal) (hr : 0 < A.sampleRate)
    (hcur : A.millis ≤ 2147483647) :
    narrowToInt (Int.tdiv ((A.wave.length : Int) * 1000) A.sampleRate) = A.millis := by
  rw [originalTime_eq A hr]
  exact narrowToInt_of_fits ⟨by have := millis_nonneg A hr; unfold AudioSignal.millis at this; omega,
    hcur⟩

theorem le_mul_of_pos_rate (d r : Int) (hd : 0 ≤ d) (hr : 0 < r) : d ≤ d * r := by
  nlinarith

/-- Growth branch of `changeDurationTo32` in closed form. -/
theorem changeDurationTo32_grow_eq (A : AudioSignal) (T : Int) (hr : 0 < A.sampleRate)
    (hT : fitsInt T) (hcur : A.millis ≤ 2147483647) (hlt : A.millis < T) :
    A.changeDurationTo32 T
      = if (T - A.millis) * A.sampleRate ≤ 2147483647 then
          if ((T - A.millis) * A.sampleRate / 1000).toNat ≤ A.wave.length then
            some { A with
              wave := A.wave.take ((T - A.millis) * A.sampleRate / 1000).toNat ++ A.wave }
          else none
        else none := by
  have hpos : 0 ≤ (T - A.millis) * A.sampleRate := mul_nonneg (by omega) hr.le
  have hd : 0 ≤ (T - A.millis) * A.sampleRate / 1000 := Int.ediv_nonneg hpos (by norm_num)
  have hle := le_mul_of_pos_rate (T - A.millis) A.sampleRate (by omega) hr
  unfold AudioSignal.changeDurationTo32
  simp only [hr, hT, and_self, if_true, originalTime32_eq A hr hcur, hlt]
  rw [Int.tdiv_eq_ediv hpos (by norm_num)]
  by_cases hfit : (T - A.millis) * A.sampleRate ≤ 2147483647
  · rw [if_pos hfit, if_pos ⟨⟨by omega, by omega⟩, ⟨by omega, hfit⟩⟩]
    by_cases hlen : ((T - A.millis) * A.sampleRate / 1000).toNat ≤ A.wave.length
    · rw [if_pos hlen, if_pos ⟨hd, by omega⟩]
    · rw [if_neg hlen, if_neg (by omega)]
  · rw [if_neg hfit, if_neg (fun h => hfit h.2.2)]

/-- Shrink branch of `changeDurationTo32` in closed form. -/
theorem changeDurationTo32_shrink_eq (A : AudioSignal) (T : Int) (hr : 0 < A.sampleRate)
    (hT : fitsInt T) (hcur : A.millis ≤ 2147483647) (hgt : T < A.millis) :
    A.changeDurationTo32 T
      = if (A.millis - T) * A.sampleRate ≤ 2147483647 then
          if ((A.millis - T) * A.sampleRate / 1000).toNat ≤ A.wave.length then
            some { A with
              wave := A.wave.take
                (A.wave.length - ((A.millis - T) * A.sampleRate / 1000).toNat) }
          else none
        else none := by
  have hpos : 0 ≤ (A.millis - T) * A.sampleRate := mul_nonneg (by omega) hr.le
  have hd : 0 ≤ (A.millis - T) * A.sampleRate / 1000 := Int.ediv_nonneg hpos (by norm_num)
  have hle := le_mul_of_pos_rate (A.millis - T) A.sampleRate (by omega) hr
  unfold AudioSignal.changeDurationTo32
  simp only [hr, hT, and_self, if_true, originalTime32_eq A hr hcur]
  rw [if_neg (by omega), if_pos (by omega)]
  rw [Int.tdiv_eq_ediv hpos (by norm_num)]
  by_cases hfit : (A.millis - T) * A.sampleRate ≤ 2147483647
  · rw [if_pos hfit, if_pos ⟨⟨by omega, by omega⟩, ⟨by omega, hfit⟩⟩]
    by_cases hlen : ((A.millis - T) * A.sampleRate / 1000).toNat ≤ A.wave.length
    · rw [if_pos hlen, if_pos ⟨hd, by omega⟩]
    · rw [if_neg hlen, if_neg (by omega)]
  · rw [if_neg hfit, if_neg (fun h => hfit h.2.2)]

theorem changeDurationTo32_same (A : AudioSignal) (T : Int) (hr : 0 < A.sampleRate)
    (hT : fitsInt T) (hcur : A.millis ≤ 2147483647) (heq : A.millis = T) :
    A.changeDurationTo32 T = some A := by
  unfold AudioSignal.changeDurationTo32
  simp only [hr, hT, and_self, if_true, originalTime32_eq A hr hcur]
  rw [if_neg (by omega), if_neg (by omega)]

theorem changeDurationTo32_metadata (A A1 : AudioSignal) (T : Int)
    (h : A.changeDurationTo32 T = some A1) :
    A1.sampleRate = A.sampleRate ∧ A1.bitsPerSample = A.bitsPerSample := by
  unfold AudioSignal.changeDurationTo32 at h
  simp only [] at h
  split_ifs at h <;> (injection h with h; subst h; exact ⟨rfl, rfl⟩)

/-- Inside the range of `int` the two embeddings of `changeDurationTo` agree. -/
theorem changeDurationTo32_eq (A : AudioSignal) (T : Int) (hr : 0 < A.sampleRate)
    (hT : fitsInt T) (hcur : A.millis ≤ 2147483647)
    (hgrow : A.millis < T → (T - A.millis) * A.sampleRate ≤ 2147483647)
    (hshrink : T < A.millis → (A.millis - T) * A.sampleRate ≤ 2147483647) :
    A.changeDurationTo32 T = A.changeDurationTo T := by
  rcases lt_trichotomy A.millis T with hlt | heq | hgt
  · rw [changeDurationTo32_grow_eq A T hr hT hcur hlt, if_pos (hgrow hlt)]
    unfold AudioSignal.millis at hlt ⊢
    have hpos : 0 ≤ (T - 1000 * (A.wave.length : Int) / A.sampleRate) * A.sampleRate :=
      mul_nonneg (by omega) hr.le
    have hd : 0 ≤ (T - 1000 * (A.wave.length : Int) / A.sampleRate) * A.sampleRate / 1000 :=
      Int.ediv_nonneg hpos (by norm_num)
    unfold AudioSignal.changeDurationTo
    simp only [hr, if_true, originalTime_eq A hr]
    rw [if_pos hlt, Int.tdiv_eq_ediv hpos (by norm_num)]
    by_cases hlen : ((T - 1000 * (A.wave.length : Int) / A.sampleRate) * A.sampleRate
        / 1000).toNat ≤ A.wave.length
    · rw [if_pos hlen, if_pos ⟨hd, by omega⟩]
    · rw [if_neg hlen, if_neg (by omega)]
  · rw [changeDurationTo32_same A T hr hT hcur heq, changeDurationTo_same A T hr heq]
  · rw [changeDurationTo32_shrink_eq A T hr hT hcur hgt, if_pos (hshrink hgt)]
    unfold AudioSignal.millis at hgt ⊢
    have hpos : 0 ≤ (1000 * (A.wave.length : Int) / A.sampleRate - T) * A.sampleRate :=
      mul_nonneg (by omega) hr.le
    have hd : 0 ≤ (1000 * (A.wave.length : Int) / A.sampleRate - T) * A.sampleRate / 1000 :=
      Int.ediv_nonneg hpos (by norm_num)
    unfold AudioSignal.changeDurationTo
    simp only [hr, if_true, originalTime_eq A hr]
    rw [if_neg (show ¬ 1000 * (A.wave.length : Int) / A.sampleRate < T by omega),
      if_pos (show 1000 * (A.wave.length : Int) / A.sampleRate > T from hgt),
      Int.tdiv_eq_ediv hpos (by norm_num)]
    by_cases hlen : ((1000 * (A.wave.length : Int) / A.sampleRate - T) * A.sampleRate
        / 1000).toNat ≤ A.wave.length
    · rw [if_pos hlen, if_pos ⟨hd, by omega⟩]
    · rw [if_neg hlen, if_neg (by omega)]

theorem update_wave_eq_self_iff (A : AudioSignal) (w : List Int) :
    (some ({ A with wave := w } : AudioSignal) = some A) ↔ w = A.wave := by
  constructor
  · intro h
    injection h with h
    exact congrArg AudioSignal.wave h
  · intro h
    rw [h]

/-- Inside the range of `int` the variable `originalTime` is the duration. -/
theorem originalTime_eq_millis (A : AudioSignal) (hr : 0 < A.sampleRate)
    (hcur : A.millis ≤ 2147483647) : A.originalTime = A.millis :=
  originalTime32_eq A hr hcur

theorem changeDurationTo32_some_pre (A A1 : AudioSignal) (T : Int)
    (h : A.changeDurationTo32 T = some A1) : 0 < A.sampleRate ∧ fitsInt T := by
  unfold AudioSignal.changeDurationTo32 at h
  by_cases hc : 0 < A.sampleRate ∧ fitsInt T
  · exact hc
  · rw [if_neg hc] at h
    exact absurd h (by simp)

/-- A call of `changeDurationTo32` returns the signal unchanged exactly when the difference
between the target and the `int` duration `originalTime` is worth less than one sample. -/
theorem changeDurationTo32_fixed_iff (A : AudioSignal) (T : Int) (hr : 0 < A.sampleRate)
    (hT : fitsInt T) :
    A.changeDurationTo32 T = some A
      ↔ (T - A.originalTime) * A.sampleRate < 1000
        ∧ (A.originalTime - T) * A.sampleRate < 1000 := by
  have ho : narrowToInt (Int.tdiv ((A.wave.length : Int) * 1000) A.sampleRate)
      = A.originalTime := rfl
  unfold AudioSignal.changeDurationTo32
  simp only [hr, hT, and_self, if_true, ho]
  rcases lt_trichotomy A.originalTime T with hlt | heq | hgt
  · have hpos : 0 ≤ (T - A.originalTime) * A.sampleRate := mul_nonneg (by omega) hr.le
    have hneg : (A.originalTime - T) * A.sampleRate < 1000 := by nlinarith
    have hle := le_mul_of_pos_rate (T - A.originalTime) A.sampleRate (by omega) hr
    rw [if_pos hlt, Int.tdiv_eq_ediv hpos (by norm_num)]
    by_cases hsmall : (T - A.originalTime) * A.sampleRate < 1000
    · have hzero : (T - A.originalTime) * A.sampleRate / 1000 = 0 :=
        Int.ediv_eq_zero_of_lt hpos hsmall
      rw [if_pos ⟨⟨by omega, by omega⟩, ⟨by omega, by omega⟩⟩, hzero]
      simp [hsmall, hneg]
    · have hone : 1 ≤ (T - A.originalTime) * A.sampleRate / 1000 := by omega
      constructor
      · intro h
        exfalso
        split_ifs at h with h1 h2
        rw [update_wave_eq_self_iff] at h
        have hlen := congrArg List.length h
        rw [List.length_append, List.length_take] at hlen
        omega
      · intro h
        exact absurd h.1 hsmall
  · rw [if_neg (by omega), if_neg (by omega)]
    constructor
    · intro _
      rw [heq]
      simp
    · intro _
      rfl
  · have hpos : 0 ≤ (A.originalTime - T) * A.sampleRate := mul_nonneg (by omega) hr.le
    have hneg : (T - A.originalTime) * A.sampleRate < 1000 := by nlinarith
    have hle := le_mul_of_pos_rate (A.originalTime - T) A.sampleRate (by omega) hr
    rw [if_neg (show ¬ A.originalTime < T by omega), if_pos (show A.originalTime > T from hgt),
      Int.tdiv_eq_ediv hpos (by norm_num)]
    by_cases hsmall : (A.originalTime - T) * A.sampleRate < 1000
    · have hzero : (A.originalTime - T) * A.sampleRate / 1000 = 0 :=
        Int.ediv_eq_zero_of_lt hpos hsmall
      rw [if_pos ⟨⟨by omega, by omega⟩, ⟨by omega, by omega⟩⟩, hzero]
      simp [hsmall, hneg]
    · have hone : 1 ≤ (A.originalTime - T) * A.sampleRate / 1000 := by omega
      constructor
      · intro h
        exfalso
        split_ifs at h with h1 h2
        rw [update_wave_eq_self_iff] at h
        have hlen := congrArg List.length h
        rw [List.length_take] at hlen
        omega
      · intro h
        exact absurd h.2 hsmall

/-- After a call within its precondition and within the range of `int`, the duration is a
non-negative `int` again, not beyond the larger of the old duration and the target. -/
theorem millis_after_change (A : AudioSignal) (T : Int) (hr : 0 < A.sampleRate)
    (w : List Int)
    (hw : (A.millis < T ∧ (w.length : Int)
            = A.wave.length + (T - A.millis) * A.sampleRate / 1000)
      ∨ (T < A.millis ∧ w.length ≤ A.wave.length)) :
    1000 * (w.length : Int) / A.sampleRate ≤ max A.millis T := by
  rcases hw with ⟨hlt, hlen⟩ | ⟨hgt, hlen⟩
  · apply le_trans _ (le_max_right _ _)
    have h1 : (T - A.millis) * A.sampleRate / 1000 * 1000 ≤ (T - A.millis) * A.sampleRate :=
      Int.ediv_mul_le _ (by norm_num)
    have h2 : 1000 * (A.wave.length : Int) < (A.millis + 1) * A.sampleRate :=
      Int.lt_ediv_add_one_mul_self _ hr
    have h3 : 1000 * (w.length : Int) < (T + 1) * A.sampleRate := by
      rw [hlen]
      nlinarith
    have h4 := (Int.ediv_lt_iff_lt_mul hr).2 h3
    omega
  · apply le_trans _ (le_max_left _ _)
    exact Int.ediv_le_ediv hr (by omega)

/-! ### A retime outside the range of `int` -/

theorem millis_replicate (r bits : Int) (n : Nat) :
    (AudioSignal.mk r bits (List.replicate n 0)).millis = 1000 * (n : Int) / r := by
  unfold AudioSignal.millis
  rw [List.length_replicate]

/-- Sixty seconds at 44.1 kHz are 2 646 000 samples. -/
theorem millis_sixty_seconds :
    (AudioSignal.mk 44100 16 (List.replicate 2646000 0)).millis = 60000 := by
  rw [millis_replicate]
  decide

/-- Retiming sixty seconds at 44.1 kHz to ten seconds multiplies `50000` by `44100` in `int`:
the product `2 205 000 000` is beyond `INT_MAX` and the call is undefined. -/
theorem retime_sixty_to_ten_seconds :
    (AudioSignal.mk 44100 16 (List.replicate 2646000 0)).changeDurationTo32 10000 = none := by
  rw [changeDurationTo32_shrink_eq _ 10000 (by decide) (by decide)
    (by rw [millis_sixty_seconds]; decide) (by rw [millis_sixty_seconds]; decide)]
  rw [millis_sixty_seconds]
  rw [if_neg (by decide)]

/-- A signal of 2 147 484 samples at 1 Hz lasts `2 147 484 000` ms, beyond `INT_MAX`: the
variable `originalTime` holds `-2 147 483 296` and a retime to `0` takes the growth branch. -/
theorem retime_wrapped_duration (w : List Int) (hw : w.length = 2147484) :
    (AudioSignal.mk 1 16 w).changeDurationTo32 0
      = some (AudioSignal.mk 1 16 (w.take 2147483 ++ w)) := by
  have ho : narrowToInt (Int.tdiv (((2147484 : Nat) : Int) * 1000) 1) = -2147483296 := by
    decide
  have hn : Int.tdiv ((0 - (-2147483296)) * 1) 1000 = 2147483 := by decide
  unfold AudioSignal.changeDurationTo32
  simp only [hw, ho, hn]
  rw [if_pos (by decide), if_pos (by decide), if_pos (by decide), if_pos (by decide)]
  rfl

/-! ### The definition of retime -/

/-- Claim C8, as stated, fails in two ways.  Sixty seconds at 44.1 kHz retimed to ten seconds
is the shrink case with `cur = 60000 > T = 10000` and a removal count `2 205 000` below the
length, yet the `int` product `(cur - T) * sampleRate` overflows and the call has no defined
result.  And 2 147 484 samples at 1 Hz have `cur = 2 147 484 000 > T = 0`, for which the claim
removes `delta = 2 147 484` samples and leaves none; the code stores `cur` into an `int`, finds
it negative and prepends 2 147 483 samples. -/
theorem changeDurationTo32_shrink_overflow :
    (0 : Int) < (AudioSignal.mk 44100 16 (List.replicate 2646000 0)).sampleRate ∧
    (AudioSignal.mk 44100 16 (List.replicate 2646000 0)).millis = 60000 ∧
    (10000 : Int) < 60000 ∧
    ((60000 - 10000) * 44100 / 1000 : Int) = 2205000 ∧
    (2205000 : Int) ≤ ((AudioSignal.mk 44100 16 (List.replicate 2646000 0)).wave.length : Int) ∧
    ¬ fitsInt ((60000 - 10000) * 44100) ∧
    (AudioSignal.mk 44100 16 (List.replicate 2646000 0)).changeDurationTo32 10000 = none ∧
    (AudioSignal.mk 1 16 (List.replicate 2147484 0)).millis = 2147484000 ∧
    ¬ fitsInt 2147484000 ∧
    ((2147484000 - 0) * 1 / 1000 : Int) = 2147484 ∧
    (AudioSignal.mk 1 16 (List.replicate 2147484 0)).changeDurationTo32 0
      = some (AudioSignal.mk 1 16
          ((List.replicate 2147484 (0 : Int)).take 2147483 ++ List.replicate 2147484 0)) ∧
    ((List.replicate 2147484 (0 : Int)).take 2147483 ++ List.replicate 2147484 0).length
      = 2147484 + 2147483 := by
  refine ⟨by decide, millis_sixty_seconds, by decide, by decide, ?_, by decide,
    retime_sixty_to_ten_seconds, ?_, by decide, by decide,
    retime_wrapped_duration _ (List.length_replicate _ _), ?_⟩
  · show (2205000 : Int) ≤ ((List.replicate 2646000 (0 : Int)).length : Int)
    rw [List.length_replicate]
    decide
  · rw [millis_replicate]
    decide
  · rw [List.length_append, List.length_take, List.length_replicate]
    decide

/-- Claim C8, amended.  With `cur = 1000 * len / sampleRate` (`millis`), for an `int` target
`T` and as long as `cur` and the `int` product of the branch taken stay within the range of
`int`: if `cur < T` and `delta = (T - cur) * sampleRate / 1000 ≤ len`, the new samples are the
first `delta` old samples followed by all old samples, `len + delta` in number; if `cur > T`,
the new samples are the first `len - delta` old samples for
`delta = (cur - T) * sampleRate / 1000`, for every target `T ≥ 0` and more generally whenever
`delta ≤ len`; if `cur = T` nothing changes.  The metadata is never changed. -/
theorem changeDurationTo32_definition (A : AudioSignal) (T : Int) (hr : 0 < A.sampleRate)
    (hT : fitsInt T) (hcur : A.millis ≤ 2147483647) :
    A.millis = 1000 * (A.wave.length : Int) / A.sampleRate ∧
    (A.millis < T → (T - A.millis) * A.sampleRate ≤ 2147483647 →
      ((T - A.millis) * A.sampleRate / 1000).toNat ≤ A.wave.length →
      A.changeDurationTo32 T = some { A with
        wave := A.wave.take ((T - A.millis) * A.sampleRate / 1000).toNat ++ A.wave } ∧
      (A.wave.take ((T - A.millis) * A.sampleRate / 1000).toNat ++ A.wave).length
        = A.wave.length + ((T - A.millis) * A.sampleRate / 1000).toNat) ∧
    (T < A.millis → (A.millis - T) * A.sampleRate ≤ 2147483647 →
      (0 ≤ T ∨ ((A.millis - T) * A.sampleRate / 1000).toNat ≤ A.wave.length) →
      A.changeDurationTo32 T = some { A with
        wave := A.wave.take
          (A.wave.length - ((A.millis - T) * A.sampleRate / 1000).toNat) }) ∧
    (A.millis = T → A.changeDurationTo32 T = some A) ∧
    (∀ A1, A.changeDurationTo32 T = some A1 →
      A1.sampleRate = A.sampleRate ∧ A1.bitsPerSample = A.bitsPerSample) := by
  refine ⟨rfl, ?_, ?_, changeDurationTo32_same A T hr hT hcur,
    fun A1 h => changeDurationTo32_metadata A A1 T h⟩
  · intro hlt hfit hpre
    rw [changeDurationTo32_grow_eq A T hr hT hcur hlt, if_pos hfit, if_pos hpre]
    refine ⟨rfl, ?_⟩
    rw [List.length_append, List.length_take, Nat.min_eq_left hpre, Nat.add_comm]
  · intro hgt hfit hpre
    have hlen : ((A.millis - T) * A.sampleRate / 1000).toNat ≤ A.wave.length :=
      hpre.elim (fun hT0 => shrink_count_le_length A T hr hT0) id
    rw [changeDurationTo32_shrink_eq A T hr hT hcur hgt, if_pos hfit, if_pos hlen]

theorem changeDurationTo32_definition_witness :
    (0 : Int) < (AudioSignal.mk 1500 16 [1, 2, 3]).sampleRate ∧
    fitsInt 3 ∧ (AudioSignal.mk 1500 16 [1, 2, 3]).millis ≤ 2147483647 ∧
    (AudioSignal.mk 1500 16 [1, 2, 3]).changeDurationTo32 3
      = some (AudioSignal.mk 1500 16 [1, 1, 2, 3]) ∧
    (AudioSignal.mk 1500 16 [1, 2, 3]).changeDurationTo32 1
      = some (AudioSignal.mk 1500 16 [1, 2]) ∧
    (AudioSignal.mk 1500 16 [1, 2, 3]).changeDurationTo32 2
      = some (AudioSignal.mk 1500 16 [1, 2, 3]) :=
  ⟨by decide, by decide, by decide,
    ((changeDurationTo32_definition (AudioSignal.mk 1500 16 [1, 2, 3]) 3 (by decide)
      (by decide) (by decide)).2.1 (by decide) (by decide) (by decide)).1,
    (changeDurationTo32_definition (AudioSignal.mk 1500 16 [1, 2, 3]) 1 (by decide)
      (by decide) (by decide)).2.2.1 (by decide) (by decide) (Or.inl (by decide)),
    (changeDurationTo32_definition (AudioSignal.mk 1500 16 [1, 2, 3]) 2 (by decide)
      (by decide) (by decide)).2.2.2.1 (by decide)⟩

/-! ### Idempotence of retime -/

/-- Claim C7, as stated, fails twice.  At 1500 Hz a three-sample signal retimed to 3 ms grows
by one sample (within the precondition, `delta = 1 ≤ 3`), and retiming the result to 3 ms again
grows it by one more sample.  And sixty seconds at 44.1 kHz retimed to ten seconds (the shrink
case, on which the claim puts no condition) overflow the `int` product of the first call. -/
theorem changeDurationTo32_not_idempotent :
    (0 : Int) < (AudioSignal.mk 1500 16 [1, 2, 3]).sampleRate ∧
    ((3 - 1000 * 3 / 1500) * 1500 / 1000 : Int) ≤ 3 ∧
    (AudioSignal.mk 1500 16 [1, 2, 3]).changeDurationTo32 3
      = some (AudioSignal.mk 1500 16 [1, 1, 2, 3]) ∧
    (AudioSignal.mk 1500 16 [1, 1, 2, 3]).changeDurationTo32 3
      = some (AudioSignal.mk 1500 16 [1, 1, 1, 2, 3]) ∧
    (AudioSignal.mk 1500 16 [1, 1, 1, 2, 3]).wave
      ≠ (AudioSignal.mk 1500 16 [1, 1, 2, 3]).wave ∧
    (0 : Int) < (AudioSignal.mk 44100 16 (List.replicate 2646000 0)).sampleRate ∧
    (10000 : Int) < (AudioSignal.mk 44100 16 (List.replicate 2646000 0)).millis ∧
    (AudioSignal.mk 44100 16 (List.replicate 2646000 0)).changeDurationTo32 10000 = none := by
  refine ⟨by decide, by decide, by decide, by decide, by decide, by decide, ?_,
    retime_sixty_to_ten_seconds⟩
  rw [millis_sixty_seconds]
  decide

/-- The first call of `changeDurationTo32` inside its precondition and the range of `int`. -/
theorem changeDurationTo32_first_call (A : AudioSignal) (T : Int) (hr : 0 < A.sampleRate)
    (hT0 : 0 ≤ T) (hT : T ≤ 2147483647) (hcur : A.millis ≤ 2147483647)
    (hgrow : A.millis < T → (T - A.millis) * A.sampleRate ≤ 2147483647 ∧
      ((T - A.millis) * A.sampleRate / 1000).toNat ≤ A.wave.length)
    (hshrink : T < A.millis → (A.millis - T) * A.sampleRate ≤ 2147483647) :
    ∃ w : List Int, A.changeDurationTo32 T = some { A with wave := w } ∧
      A.changeDurationTo T = some { A with wave := w } ∧
      1000 * (w.length : Int) / A.sampleRate ≤ 2147483647 := by
  have hfit : fitsInt T := ⟨by omega, hT⟩
  have heq := changeDurationTo32_eq A T hr hfit hcur (fun h => (hgrow h).1) hshrink
  rcases lt_trichotomy A.millis T with hlt | hsame | hgt
  · have hpos : 0 ≤ (T - A.millis) * A.sampleRate := mul_nonneg (by omega) hr.le
    have hd : 0 ≤ (T - A.millis) * A.sampleRate / 1000 := Int.ediv_nonneg hpos (by norm_num)
    have hcall : A.changeDurationTo32 T = some { A with
        wave := A.wave.take ((T - A.millis) * A.sampleRate / 1000).toNat ++ A.wave } := by
      rw [changeDurationTo32_grow_eq A T hr hfit hcur hlt, if_pos (hgrow hlt).1,
        if_pos (hgrow hlt).2]
    refine ⟨_, hcall, by rw [← heq]; exact hcall, ?_⟩
    have hbound := millis_after_change A T hr
      (A.wave.take ((T - A.millis) * A.sampleRate / 1000).toNat ++ A.wave)
      (Or.inl ⟨hlt, by
        rw [List.length_append, List.length_take, Nat.min_eq_left (hgrow hlt).2]
        push_cast
        rw [Int.toNat_of_nonneg hd]
        ring⟩)
    exact le_trans hbound (max_le hcur hT)
  · have hcall := changeDurationTo32_same A T hr hfit hcur hsame
    exact ⟨A.wave, hcall, by rw [← heq]; exact hcall, hcur⟩
  · have hlen : ((A.millis - T) * A.sampleRate / 1000).toNat ≤ A.wave.length :=
      shrink_count_le_length A T hr hT0
    have hcall : A.changeDurationTo32 T = some { A with
        wave := A.wave.take
          (A.wave.length - ((A.millis - T) * A.sampleRate / 1000).toNat) } := by
      rw [changeDurationTo32_shrink_eq A T hr hfit hcur hgt, if_pos (hshrink hgt), if_pos hlen]
    refine ⟨_, hcall, by rw [← heq]; exact hcall, ?_⟩
    have hbound := millis_after_change A T hr
      (A.wave.take (A.wave.length - ((A.millis - T) * A.sampleRate / 1000).toNat))
      (Or.inr ⟨hgt, by rw [List.length_take]; omega⟩)
    exact le_trans hbound (max_le hcur hT)

/-- Claim C7, amended.  Whenever the first `changeDurationTo T` has a defined result `A1` (it
is within its precondition and no `int` value of it overflows), a second `changeDurationTo T`
leaves `A1` as it is if and only if the `int` duration `cur1` of `A1` differs from `T` by less
than one sample: `(T - cur1) * sampleRate < 1000` and `(cur1 - T) * sampleRate < 1000`.  The
first call has a defined result for a positive sample rate and an `int` target `T ≥ 0` when the
duration `cur` is in the range of `int`, the product `|T - cur| * sampleRate` of the branch
taken is in the range of `int` and, in the growth case, `delta ≤ len`; and when
`(T - cur) * sampleRate` is a multiple of 1000, the first call reaches `T` exactly and the
second call changes nothing. -/
theorem changeDurationTo32_idempotent_iff (A : AudioSignal) (T : Int) :
    (∀ A1, A.changeDurationTo32 T = some A1 →
      (A1.changeDurationTo32 T = some A1
        ↔ (T - A1.originalTime) * A1.sampleRate < 1000
          ∧ (A1.originalTime - T) * A1.sampleRate < 1000)) ∧
    (0 < A.sampleRate → 0 ≤ T → T ≤ 2147483647 → A.millis ≤ 2147483647 →
      (A.millis < T → (T - A.millis) * A.sampleRate ≤ 2147483647 ∧
        ((T - A.millis) * A.sampleRate / 1000).toNat ≤ A.wave.length) →
      (T < A.millis → (A.millis - T) * A.sampleRate ≤ 2147483647) →
      ∃ A1, A.changeDurationTo32 T = some A1 ∧ A1.originalTime = A1.millis ∧
        ((1000 : Int) ∣ (T - A.millis) * A.sampleRate →
          A1.millis = T ∧ A1.changeDurationTo32 T = some A1)) := by
  constructor
  · intro A1 hfirst
    obtain ⟨hr, hfit⟩ := changeDurationTo32_some_pre A A1 T hfirst
    have hrate := (changeDurationTo32_metadata A A1 T hfirst).1
    exact changeDurationTo32_fixed_iff A1 T (by rw [hrate]; exact hr) hfit
  · intro hr hT0 hT hcur hgrow hshrink
    have hfit : fitsInt T := ⟨by omega, hT⟩
    obtain ⟨w, hcall, hcallU, hcur1⟩ :=
      changeDurationTo32_first_call A T hr hT0 hT hcur hgrow hshrink
    refine ⟨{ A with wave := w }, hcall,
      originalTime_eq_millis { A with wave := w } hr hcur1, ?_⟩
    intro hdvd
    obtain ⟨w2, hcall2, hdur⟩ :=
      changeDurationTo_exact A T hr hT0 hdvd (fun h => (hgrow h).2)
    rw [hcallU] at hcall2
    have hw : w = w2 := by
      injection hcall2 with h
      exact congrArg AudioSignal.wave h
    subst hw
    exact ⟨hdur, changeDurationTo32_same { A with wave := w } T hr hfit hcur1 hdur⟩

theorem changeDurationTo32_idempotent_iff_witness :
    (AudioSignal.mk 44100 16 (List.replicate 100 7)).changeDurationTo32 3
      = some (AudioSignal.mk 44100 16 (List.replicate 144 7)) ∧
    ((AudioSignal.mk 44100 16 (List.replicate 144 7)).changeDurationTo32 3
        = some (AudioSignal.mk 44100 16 (List.replicate 144 7))
      ↔ (3 - (AudioSignal.mk 44100 16 (List.replicate 144 7)).originalTime) * 44100 < 1000
        ∧ ((AudioSignal.mk 44100 16 (List.replicate 144 7)).originalTime - 3) * 44100 < 1000) ∧
    (AudioSignal.mk 44100 16 (List.replicate 144 7)).changeDurationTo32 3
      = some (AudioSignal.mk 44100 16 (List.replicate 144 7)) ∧
    ∃ A1, (AudioSignal.mk 44100 16 (List.replicate 100 7)).changeDurationTo32 3 = some A1 ∧
      A1.originalTime = A1.millis :=
  ⟨by decide,
    (changeDurationTo32_idempotent_iff (AudioSignal.mk 44100 16 (List.replicate 100 7)) 3).1
      (AudioSignal.mk 44100 16 (List.replicate 144 7)) (by decide),
    ((changeDurationTo32_idempotent_iff (AudioSignal.mk 44100 16 (List.replicate 100 7)) 3).1
      (AudioSignal.mk 44100 16 (List.replicate 144 7)) (by decide)).2 (by decide),
    ((changeDurationTo32_idempotent_iff (AudioSignal.mk 44100 16 (List.replicate 100 7)) 3).2
      (by decide) (by decide) (by decide) (by decide) (by decide) (by decide)).imp
      (fun _ h => ⟨h.1, h.2.1⟩)⟩

/-! ## Delay and trim: `AudioSignal::operator>>`, `AudioSignal::operator<<` -/

theorem operatorShr_eq (A : AudioSignal) (ms : Int) (hr : 0 < A.sampleRate) (hms : 0 ≤ ms) :
    A.operatorShr ms = some { A with
      wave := List.replicate (A.sampleRate * ms / 1000).toNat 0 ++ A.wave } := by
  have hpos : 0 ≤ A.sampleRate * ms := mul_nonneg hr.le hms
  have hn : 0 ≤ A.sampleRate * ms / 1000 := Int.ediv_nonneg hpos (by norm_num)
  unfold AudioSignal.operatorShr
  simp only [Int.tdiv_eq_ediv hpos (by norm_num : (0 : Int) ≤ 1000)]
  rw [if_pos hn]

theorem operatorShl_delayed (A : AudioSignal) (ms : Int) (hr : 0 < A.sampleRate)
    (hms : 0 ≤ ms) :
    AudioSignal.operatorShl
      { A with wave := List.replicate (A.sampleRate * ms / 1000).toNat 0 ++ A.wave } ms
      = some A := by
  have hpos : 0 ≤ A.sampleRate * ms := mul_nonneg hr.le hms
  have hn : 0 ≤ A.sampleRate * ms / 1000 := Int.ediv_nonneg hpos (by norm_num)
  unfold AudioSignal.operatorShl
  simp only [Int.tdiv_eq_ediv hpos (by norm_num : (0 : Int) ≤ 1000)]
  rw [if_pos]
  · rw [List.drop_left' (List.length_replicate _ _)]
  · refine ⟨hn, ?_⟩
    rw [List.length_append, List.length_replicate]
    push_cast
    rw [Int.toNat_of_nonneg hn]
    omega

/-- Claim C9.  For a signal of positive sample rate and `ms ≥ 0`, `A >> ms` is
`sampleRate * ms / 1000` zero samples followed by the samples of `A`, with the metadata of `A`;
trimming it by `ms` gives back `A` (samples, sample rate and bit depth); and `A >> 0` is `A`.
The operand is a value of the embedding and is not changed by either call. -/
theorem operatorShl_undoes_operatorShr (A : AudioSignal) (ms : Int) (hr : 0 < A.sampleRate)
    (hms : 0 ≤ ms) :
    A.operatorShr ms = some { A with
      wave := List.replicate (A.sampleRate * ms / 1000).toNat 0 ++ A.wave } ∧
    (A.operatorShr ms).bind (fun delayed => delayed.operatorShl ms) = some A ∧
    A.operatorShr 0 = some A := by
  refine ⟨operatorShr_eq A ms hr hms, ?_, ?_⟩
  · rw [operatorShr_eq A ms hr hms, Option.some_bind]
    exact operatorShl_delayed A ms hr hms
  · rw [operatorShr_eq A 0 hr le_rfl]
    simp

theorem operatorShl_undoes_operatorShr_witness :
    (0 : Int) < (AudioSignal.mk 8000 16 [5, -6, 7]).sampleRate ∧ (0 : Int) ≤ 1 ∧
    (AudioSignal.mk 8000 16 [5, -6, 7]).operatorShr 1
      = some (AudioSignal.mk 8000 16 [0, 0, 0, 0, 0, 0, 0, 0, 5, -6, 7]) ∧
    ((AudioSignal.mk 8000 16 [5, -6, 7]).operatorShr 1).bind
      (fun delayed => delayed.operatorShl 1) = some (AudioSignal.mk 8000 16 [5, -6, 7]) :=
  ⟨by decide, by decide,
    (operatorShl_undoes_operatorShr (AudioSignal.mk 8000 16 [5, -6, 7]) 1 (by decide)
      (by decide)).1.trans (by decide),
    (operatorShl_undoes_operatorShr (AudioSignal.mk 8000 16 [5, -6, 7]) 1 (by decide)
      (by decide)).2.1⟩

/-! ## Duration of a concatenation: `AudioSignal::operator&`, `AudioSignal::duration` -/

theorem duration_eq (A : AudioSignal) (hr : 0 < A.sampleRate) :
    A.duration = some (1000 * (A.wave.length : Int) / A.sampleRate) := by
  unfold AudioSignal.duration
  rw [if_pos hr, Int.tdiv_eq_ediv (by positivity) hr.le]

theorem ediv_add_bounds (a b r : Int) (hr : 0 < r) :
    a / r + b / r ≤ (a + b) / r ∧ (a + b) / r ≤ a / r + b / r + 1 := by
  have ha1 := Int.ediv_mul_le a (by omega : r ≠ 0)
  have hb1 := Int.ediv_mul_le b (by omega : r ≠ 0)
  have ha2 := Int.lt_ediv_add_one_mul_self a hr
  have hb2 := Int.lt_ediv_add_one_mul_self b hr
  constructor
  · rw [Int.le_ediv_iff_mul_le hr]
    linarith
  · have : (a + b) / r < a / r + b / r + 2 := by
      rw [Int.ediv_lt_iff_lt_mul hr]
      linarith
    omega

/-- Claim C10.  For signals `A` and `B` of the same sample rate `r > 0`, `A & B` holds the
samples of `A` followed by those of `B` (`len A + len B` samples) with the metadata of `A`, and
its duration `d` satisfies `duration A + duration B ≤ d ≤ duration A + duration B + 1`, every
duration being `1000 * len / r` with integer division. -/
theorem duration_operatorAnd (A B : AudioSignal) (hr : 0 < A.sampleRate)
    (hsame : B.sampleRate = A.sampleRate) :
    (A.operatorAnd B).wave = A.wave ++ B.wave ∧
    (A.operatorAnd B).wave.length = A.wave.length + B.wave.length ∧
    (A.operatorAnd B).sampleRate = A.sampleRate ∧
    (A.operatorAnd B).bitsPerSample = A.bitsPerSample ∧
    A.duration = some (1000 * (A.wave.length : Int) / A.sampleRate) ∧
    B.duration = some (1000 * (B.wave.length : Int) / A.sampleRate) ∧
    (A.operatorAnd B).duration
      = some (1000 * ((A.wave.length + B.wave.length : Nat) : Int) / A.sampleRate) ∧
    1000 * (A.wave.length : Int) / A.sampleRate + 1000 * (B.wave.length : Int) / A.sampleRate
      ≤ 1000 * ((A.wave.length + B.wave.length : Nat) : Int) / A.sampleRate ∧
    1000 * ((A.wave.length + B.wave.length : Nat) : Int) / A.sampleRate
      ≤ 1000 * (A.wave.length : Int) / A.sampleRate
          + 1000 * (B.wave.length : Int) / A.sampleRate + 1 := by
  have hB : 0 < B.sampleRate := by rw [hsame]; exact hr
  have hAB : 0 < (A.operatorAnd B).sampleRate := hr
  have hbounds := ediv_add_bounds (1000 * (A.wave.length : Int)) (1000 * (B.wave.length : Int))
    A.sampleRate hr
  have hsum : 1000 * ((A.wave.length + B.wave.length : Nat) : Int)
      = 1000 * (A.wave.length : Int) + 1000 * (B.wave.length : Int) := by
    push_cast; ring
  refine ⟨rfl, by simp [AudioSignal.operatorAnd], rfl, rfl, duration_eq A hr, ?_, ?_, ?_, ?_⟩
  · rw [duration_eq B hB, hsame]
  · rw [duration_eq _ hAB]
    simp [AudioSignal.operatorAnd]
  · rw [hsum]; exact hbounds.1
  · rw [hsum]; exact hbounds.2

theorem duration_operatorAnd_witness :
    (0 : Int) < (AudioSignal.mk 1500 16 [1, 2]).sampleRate ∧
    (AudioSignal.mk 1500 8 [3]).sampleRate = (AudioSignal.mk 1500 16 [1, 2]).sampleRate ∧
    (AudioSignal.mk 1500 16 [1, 2]).duration = some 1 ∧
    (AudioSignal.mk 1500 8 [3]).duration = some 0 ∧
    ((AudioSignal.mk 1500 16 [1, 2]).operatorAnd (AudioSignal.mk 1500 8 [3])).duration
      = some 2 ∧
    ((AudioSignal.mk 1500 16 [1, 2]).operatorAnd (AudioSignal.mk 1500 8 [3])).wave
      = [1, 2, 3] :=
  ⟨by decide, by decide, by decide, by decide, by decide,
    (duration_operatorAnd (AudioSignal.mk 1500 16 [1, 2]) (AudioSignal.mk 1500 8 [3])
      (by decide) (by decide)).1⟩

/-! ## Scaling: `AudioSignal::operator*` -/

theorem doubleToInt_intCast (n : Int) : doubleToInt (n : ℚ) = n := by
  unfold doubleToInt
  rw [Rat.num_intCast, Rat.den_intCast]
  simp

theorem doubleToInt_half : doubleToInt (1 / 2) = 0 := by
  unfold doubleToInt
  have hn : (1 / 2 : ℚ).num = 1 := by norm_num
  have hd : (1 / 2 : ℚ).den = 2 := by norm_num
  rw [hn, hd]
  decide

theorem narrowToSample_mul_zero (s : Int) : narrowToSample (multipliesInt s 0) = 0 := by
  unfold multipliesInt
  rw [mul_zero]
  exact narrowToSample_zero

theorem operatorMul_of_doubleToInt_zero (A : AudioSignal) (f : ℚ) (hf : doubleToInt f = 0) :
    A.operatorMul f = { A with wave := List.replicate A.wave.length 0 } := by
  unfold AudioSignal.operatorMul
  rw [hf]
  congr 1
  rw [List.eq_replicate_iff]
  refine ⟨by simp, ?_⟩
  intro b hb
  rw [List.mem_map] at hb
  obtain ⟨s, -, hs⟩ := hb
  rw [← hs]
  exact narrowToSample_mul_zero s

/-- Claim C11 fails on the code.  Scaling the samples `10, -7` by the factor `0.5` stores
`0, 0`: `std::multiplies<int>` converts the factor to `int` before multiplying.  The product
`10 * 0.5` truncated to the sample type, which the claim describes, is `5`. -/
theorem operatorMul_half_is_silence :
    (AudioSignal.mk 8000 16 [10, -7]).operatorMul (1 / 2) = AudioSignal.mk 8000 16 [0, 0] ∧
    narrowToSample (doubleToInt ((10 : ℚ) * (1 / 2))) = 5 := by
  constructor
  · rw [operatorMul_of_doubleToInt_zero _ _ doubleToInt_half]
    rfl
  · have h5 : ((10 : ℚ) * (1 / 2)) = ((5 : Int) : ℚ) := by norm_num
    rw [h5, doubleToInt_intCast]
    decide

/-! ## Echo: `addEcho` and the command `*e<N>` -/

theorem echoFactor_eq_zero : doubleToInt ((Int.tdiv (-1) 4 : Int) : ℚ) = 0 := by
  rw [doubleToInt_intCast]
  decide

theorem addEcho_eq (i : Int) (music : AudioSignal) (hr : 0 < music.sampleRate) (hi : 0 ≤ i) :
    addEcho i music = some { music with
      wave := List.replicate ((music.sampleRate * i / 1000).toNat + music.wave.length) 0 } := by
  unfold addEcho
  rw [operatorShr_eq music i hr hi]
  simp only []
  rw [operatorMul_of_doubleToInt_zero _ _ echoFactor_eq_zero]
  simp

/-- Claim C19 fails on the code.  The echo of the samples `8, -8` is `0, 0`, with or without
a delay: the factor `-1/4` is an `int` quotient, which is `0`.  The claim has magnitudes
`8 / 4 = 2` there. -/
theorem addEcho_is_silence :
    addEcho 0 (AudioSignal.mk 8000 16 [8, -8]) = some (AudioSignal.mk 8000 16 [0, 0]) ∧
    addEcho 1 (AudioSignal.mk 2000 16 [8, -8]) = some (AudioSignal.mk 2000 16 [0, 0, 0, 0]) ∧
    Int.tdiv 8 4 = 2 := by
  refine ⟨?_, ?_, by decide⟩
  · rw [addEcho_eq 0 _ (by decide) (by decide)]
    rfl
  · rw [addEcho_eq 1 _ (by decide) (by decide)]
    rfl

theorem operatorCall_track (env : Env) (mc : MusicComposer) (ent : List Char)
    (hstar : ent.take 1 = ['*']) (hc : ent.getD 1 (Char.ofNat 0) = 't') :
    MusicComposer.operatorCall env mc ent
      = (vectorResize mc.musicTrack (env.toInt (ent.drop 2)) env.emptySignal).map
          (fun tracks => { mc with
            currentTrack := env.toInt (ent.drop 2) - 1, musicTrack := tracks }) := by
  unfold MusicComposer.operatorCall
  simp only [hstar, hc, ne_eq, not_true_eq_false, if_false, if_true]
  cases vectorResize mc.musicTrack (env.toInt (ent.drop 2)) env.emptySignal <;> rfl

/-- Claim C14.  The command `*t<N>` with `N ≥ 1`: afterwards there are `N` tracks, the first
`min N (old length)` of them are the old tracks at those positions, every further track is an
empty signal, `activeTrackIndex` is `N - 1`, and `overall` is unchanged. -/
theorem track_command (env : Env) (mc : MusicComposer) (ent : List Char)
    (hstar : ent.take 1 = ['*']) (hc : ent.getD 1 (Char.ofNat 0) = 't')
    (hN : 1 ≤ env.toInt (ent.drop 2)) :
    ∃ mc1, MusicComposer.operatorCall env mc ent = some mc1 ∧
      (mc1.musicTrack.length : Int) = env.toInt (ent.drop 2) ∧
      (∀ k : Nat, k < min (env.toInt (ent.drop 2)).toNat mc.musicTrack.length →
        mc1.musicTrack[k]? = mc.musicTrack[k]?) ∧
      (∀ k : Nat, mc.musicTrack.length ≤ k → (k : Int) < env.toInt (ent.drop 2) →
        mc1.musicTrack[k]? = some env.emptySignal) ∧
      env.emptySignal.wave = [] ∧
      mc1.currentTrack = env.toInt (ent.drop 2) - 1 ∧
      mc1.music = mc.music := by
  have h0 : 0 ≤ env.toInt (ent.drop 2) := by omega
  refine ⟨{ mc with
            currentTrack := env.toInt (ent.drop 2) - 1,
            musicTrack := mc.musicTrack.take (env.toInt (ent.drop 2)).toNat
              ++ List.replicate ((env.toInt (ent.drop 2)).toNat - mc.musicTrack.length)
                  env.emptySignal },
    ?_, ?_, ?_, ?_, rfl, rfl, rfl⟩
  · rw [operatorCall_track env mc ent hstar hc]
    unfold vectorResize
    rw [if_pos h0]
    rfl
  · simp only [List.length_append, List.length_take, List.length_replicate]
    omega
  · intro k hk
    have hk1 : k < (env.toInt (ent.drop 2)).toNat := lt_of_lt_of_le hk (Nat.min_le_left _ _)
    have hk2 : k < mc.musicTrack.length := lt_of_lt_of_le hk (Nat.min_le_right _ _)
    show (mc.musicTrack.take (env.toInt (ent.drop 2)).toNat ++ _)[k]? = _
    rw [List.getElem?_append_left (by rw [List.length_take]; omega), List.getElem?_take,
      if_pos hk1]
  · intro k hk1 hk2
    show (mc.musicTrack.take (env.toInt (ent.drop 2)).toNat ++ _)[k]? = _
    have hlen : (mc.musicTrack.take (env.toInt (ent.drop 2)).toNat).length
        = mc.musicTrack.length := by
      rw [List.length_take]; omega
    rw [List.getElem?_append_right (by omega), List.getElem?_replicate, if_pos (by omega)]

theorem track_command_witness :
    (['*', 't', '3'] : List Char).take 1 = ['*'] ∧
    (['*', 't', '3'] : List Char).getD 1 (Char.ofNat 0) = 't' ∧
    1 ≤ sampleEnv.toInt ((['*', 't', '3'] : List Char).drop 2) ∧
    MusicComposer.operatorCall sampleEnv
        (MusicComposer.mk (AudioSignal.mk 8000 16 [5])
          [AudioSignal.mk 8000 16 [1], AudioSignal.mk 8000 16 [2]] 0) ['*', 't', '3']
      = some (MusicComposer.mk (AudioSignal.mk 8000 16 [5])
          [AudioSignal.mk 8000 16 [1], AudioSignal.mk 8000 16 [2], AudioSignal.mk 8000 16 []]
          2) ∧
    ∃ mc1, MusicComposer.operatorCall sampleEnv
        (MusicComposer.mk (AudioSignal.mk 8000 16 [5])
          [AudioSignal.mk 8000 16 [1], AudioSignal.mk 8000 16 [2]] 0) ['*', 't', '3']
        = some mc1 ∧
      (mc1.musicTrack.length : Int) = sampleEnv.toInt ((['*', 't', '3'] : List Char).drop 2) :=
  ⟨by decide, by decide, by decide, by decide,
    (track_command sampleEnv
      (MusicComposer.mk (AudioSignal.mk 8000 16 [5])
        [AudioSignal.mk 8000 16 [1], AudioSignal.mk 8000 16 [2]] 0)
      ['*', 't', '3'] (by decide) (by decide) (by decide)).imp
      (fun _ h => ⟨h.1, h.2.1⟩)⟩

/-! ## Tone tokens -/

theorem take_one_ne_star (ent : List Char) (h : ent.head? ≠ some '*') :
    ent.take 1 ≠ ['*'] := by
  cases ent with
  | nil => simp
  | cons c rest => simpa using h

theorem operatorCall_tone (env : Env) (mc : MusicComposer) (ent : List Char)
    (htone : ent.take 1 ≠ ['*']) (track : AudioSignal) (h0 : 0 ≤ mc.currentTrack)
    (htrack : mc.musicTrack[mc.currentTrack.toNat]? = some track) :
    MusicComposer.operatorCall env mc ent
      = some { mc with
          musicTrack := mc.musicTrack.set mc.currentTrack.toNat
            (track.operatorAnd (env.nm (ent.map Char.toUpper))) } := by
  have hlt : mc.currentTrack.toNat < mc.musicTrack.length := by
    by_contra hge
    rw [List.getElem?_eq_none (by omega)] at htrack
    cases htrack
  have hidx : 0 ≤ mc.currentTrack ∧ mc.currentTrack < mc.musicTrack.length := by omega
  unfold MusicComposer.operatorCall
  simp only [htone, ne_eq, not_false_eq_true, if_true, vectorAt, h0, htrack, vectorSet, hidx,
    and_self]

/-- Claim C16.  A tone token `ent` (first character not `*`) processed with
`0 ≤ activeTrackIndex < len(tracks)`: the active track's samples become its old samples
followed by the samples of `nm (uppercase ent)`, its sample rate and bit depth are kept, and
every other track, the number of tracks, `activeTrackIndex` and `overall` are unchanged. -/
theorem tone_token_frame (env : Env) (mc : MusicComposer) (ent : List Char)
    (hidx : 0 ≤ mc.currentTrack ∧ mc.currentTrack < mc.musicTrack.length)
    (hfirst : ent.head? ≠ some '*') :
    ∃ track track1 mc1,
      mc.musicTrack[mc.currentTrack.toNat]? = some track ∧
      MusicComposer.operatorCall env mc ent = some mc1 ∧
      mc1.musicTrack[mc.currentTrack.toNat]? = some track1 ∧
      track1.wave = track.wave ++ (env.nm (ent.map Char.toUpper)).wave ∧
      track1.sampleRate = track.sampleRate ∧
      track1.bitsPerSample = track.bitsPerSample ∧
      (∀ k : Nat, k ≠ mc.currentTrack.toNat → mc1.musicTrack[k]? = mc.musicTrack[k]?) ∧
      mc1.musicTrack.length = mc.musicTrack.length ∧
      mc1.currentTrack = mc.currentTrack ∧
      mc1.music = mc.music := by
  have hlt : mc.currentTrack.toNat < mc.musicTrack.length := by omega
  have htrack : mc.musicTrack[mc.currentTrack.toNat]?
      = some (mc.musicTrack[mc.currentTrack.toNat]) := List.getElem?_eq_getElem hlt
  refine ⟨mc.musicTrack[mc.currentTrack.toNat],
    (mc.musicTrack[mc.currentTrack.toNat]).operatorAnd (env.nm (ent.map Char.toUpper)),
    { mc with
      musicTrack := mc.musicTrack.set mc.currentTrack.toNat
        ((mc.musicTrack[mc.currentTrack.toNat]).operatorAnd (env.nm (ent.map Char.toUpper))) },
    htrack, operatorCall_tone env mc ent (take_one_ne_star ent hfirst) _ hidx.1 htrack,
    ?_, rfl, rfl, rfl, ?_, ?_, rfl, rfl⟩
  · show (mc.musicTrack.set _ _)[mc.currentTrack.toNat]? = _
    rw [List.getElem?_set, if_pos rfl, if_pos hlt]
  · intro k hk
    show (mc.musicTrack.set _ _)[k]? = _
    rw [List.getElem?_set_ne (Ne.symm hk)]
  · show (mc.musicTrack.set _ _).length = _
    rw [List.length_set]

theorem tone_token_frame_witness :
    ((0 : Int) ≤ 1 ∧ (1 : Int) < ([AudioSignal.mk 8000 16 [1], AudioSignal.mk 8000 16 [2]]
      : List AudioSignal).length) ∧
    (['c', '4'] : List Char).head? ≠ some '*' ∧
    MusicComposer.operatorCall sampleEnv
        (MusicComposer.mk (AudioSignal.mk 8000 16 [5])
          [AudioSignal.mk 8000 16 [1], AudioSignal.mk 8000 16 [2]] 1) ['c', '4']
      = some (MusicComposer.mk (AudioSignal.mk 8000 16 [5])
          [AudioSignal.mk 8000 16 [1], AudioSignal.mk 8000 16 [2, 100, 200, -100, -200]] 1) ∧
    ∃ track track1 mc1,
      ([AudioSignal.mk 8000 16 [1], AudioSignal.mk 8000 16 [2]] : List AudioSignal)[1]?
        = some track ∧
      MusicComposer.operatorCall sampleEnv
        (MusicComposer.mk (AudioSignal.mk 8000 16 [5])
          [AudioSignal.mk 8000 16 [1], AudioSignal.mk 8000 16 [2]] 1) ['c', '4'] = some mc1 ∧
      mc1.musicTrack[1]? = some track1 ∧
      track1.wave = track.wave ++ (sampleEnv.nm ['C', '4']).wave :=
  ⟨by decide, by decide, by decide,
    (tone_token_frame sampleEnv
      (MusicComposer.mk (AudioSignal.mk 8000 16 [5])
        [AudioSignal.mk 8000 16 [1], AudioSignal.mk 8000 16 [2]] 1) ['c', '4']
      (by decide) (by decide)).imp
      (fun _ h => h.imp (fun _ h => h.imp (fun _ h => ⟨h.1, h.2.1, h.2.2.1, h.2.2.2.1⟩)))⟩

/-! ## The value returned by `MusicComposer::operator()` -/

theorem operatorCall_C4_fresh (env : Env) :
    MusicComposer.operatorCall env (MusicComposer.new env) ['C', '4']
      = some { music := env.emptySignal,
               musicTrack := [env.emptySignal.operatorAnd (env.nm ['C', '4'])],
               currentTrack := 0 } := by
  rw [operatorCall_tone env (MusicComposer.new env) ['C', '4'] (by decide) env.emptySignal
    (le_refl _) rfl]
  rfl

/-- Claim C15 fails on the code.  On a fresh composer the call with the tone token `C4`
returns the member `music`, the empty overall signal, while the current track after the call is
the empty track followed by the tone; with a four-sample tone the two differ. -/
theorem operatorCall_returns_overall (env : Env) :
    MusicComposer.operatorCallResult env (MusicComposer.new env) ['C', '4']
      = some env.emptySignal ∧
    (MusicComposer.operatorCall env (MusicComposer.new env) ['C', '4']).bind
        (fun mc1 => vectorAt mc1.musicTrack mc1.currentTrack)
      = some (env.emptySignal.operatorAnd (env.nm ['C', '4'])) ∧
    MusicComposer.operatorCallResult sampleEnv (MusicComposer.new sampleEnv) ['C', '4']
      = some (AudioSignal.mk 8000 16 []) ∧
    (MusicComposer.operatorCall sampleEnv (MusicComposer.new sampleEnv) ['C', '4']).bind
        (fun mc1 => vectorAt mc1.musicTrack mc1.currentTrack)
      = some (AudioSignal.mk 8000 16 [100, 200, -100, -200]) := by
  refine ⟨?_, ?_, by decide, by decide⟩
  · unfold MusicComposer.operatorCallResult
    rw [operatorCall_C4_fresh]
    rfl
  · rw [operatorCall_C4_fresh]
    rfl

/-! ## The scenario `C4 *t2 E4 *.` -/

theorem operatorCall_E4_second_track (env : Env) (music t0 t1 : AudioSignal) :
    MusicComposer.operatorCall env
        { music := music, musicTrack := [t0, t1], currentTrack := 1 } ['E', '4']
      = some { music := music,
               musicTrack := [t0, t1.operatorAnd (env.nm ['E', '4'])],
               currentTrack := 1 } := by
  rw [operatorCall_tone env { music := music, musicTrack := [t0, t1], currentTrack := 1 }
    ['E', '4'] (by decide) t1 (by show (0 : Int) ≤ 1; decide) rfl]
  rfl

theorem processAll_append (env : Env) (mc : MusicComposer) (l₁ l₂ : List (List Char)) :
    MusicComposer.processAll env mc (l₁ ++ l₂)
      = (MusicComposer.processAll env mc l₁).bind
          (fun mc1 => MusicComposer.processAll env mc1 l₂) := by
  induction l₁ generalizing mc with
  | nil => rfl
  | cons ent rest ih =>
    simp only [List.cons_append, MusicComposer.processAll]
    cases MusicComposer.operatorCall env mc ent with
    | none => rfl
    | some mc1 => exact ih mc1

theorem processAll_singleton (env : Env) (mc : MusicComposer) (ent : List Char) :
    MusicComposer.processAll env mc [ent] = MusicComposer.operatorCall env mc ent := by
  simp only [MusicComposer.processAll]
  cases MusicComposer.operatorCall env mc ent <;> rfl

/-- Claim C12.  From a fresh composer, for every tone generator: after `C4` track 0 holds the
samples of `nm "C4"`; after `*t2` there are two tracks, track 0 unchanged, track 1 empty, active
index 1; after `E4` track 1 holds the samples of `nm "E4"` and track 0 is unchanged; after `*.`
`overall` holds exactly the mix of `nm "C4"` and `nm "E4"` (as long as the longer one, the
sample-wise 16-bit sum with the shorter one read as `0` beyond its end) and `tracks` is a
single empty track. -/
theorem scenario_C4_t2_E4_flush (env : Env) (h2 : env.toInt ['2'] = 2) :
    MusicComposer.processAll env (MusicComposer.new env) [['C', '4']]
      = some { music := env.emptySignal,
               musicTrack := [env.emptySignal.operatorAnd (env.nm ['C', '4'])],
               currentTrack := 0 } ∧
    (env.emptySignal.operatorAnd (env.nm ['C', '4'])).wave = (env.nm ['C', '4']).wave ∧
    MusicComposer.processAll env (MusicComposer.new env) [['C', '4'], ['*', 't', '2']]
      = some { music := env.emptySignal,
               musicTrack := [env.emptySignal.operatorAnd (env.nm ['C', '4']), env.emptySignal],
               currentTrack := 1 } ∧
    env.emptySignal.wave = [] ∧
    MusicComposer.processAll env (MusicComposer.new env)
        [['C', '4'], ['*', 't', '2'], ['E', '4']]
      = some { music := env.emptySignal,
               musicTrack := [env.emptySignal.operatorAnd (env.nm ['C', '4']),
                 env.emptySignal.operatorAnd (env.nm ['E', '4'])],
               currentTrack := 1 } ∧
    (env.emptySignal.operatorAnd (env.nm ['E', '4'])).wave = (env.nm ['E', '4']).wave ∧
    ∃ mc4, MusicComposer.processAll env (MusicComposer.new env)
        [['C', '4'], ['*', 't', '2'], ['E', '4'], ['*', '.']] = some mc4 ∧
      mc4.music.wave = ((env.nm ['C', '4']).operatorPlus (env.nm ['E', '4'])).wave ∧
      mc4.music.wave.length
        = max (env.nm ['C', '4']).wave.length (env.nm ['E', '4']).wave.length ∧
      ((env.nm ['C', '4']).InRange → (env.nm ['E', '4']).InRange → ∀ k,
        mc4.music.wave.getD k 0
          = narrowToSample ((env.nm ['C', '4']).wave.getD k 0
              + (env.nm ['E', '4']).wave.getD k 0)) ∧
      mc4.musicTrack = [env.emptySignal] := by
  have hwave : ∀ t : AudioSignal, (env.emptySignal.operatorAnd t).wave = t.wave := by
    intro t
    simp [AudioSignal.operatorAnd, Env.emptySignal, AudioSignal.mk0]
  have hmix : (MusicComposer.getMusic env
        { music := env.emptySignal,
          musicTrack := [env.emptySignal.operatorAnd (env.nm ['C', '4']),
            env.emptySignal.operatorAnd (env.nm ['E', '4'])],
          currentTrack := 1 }).music.wave
      = mixWave (env.nm ['C', '4']).wave (env.nm ['E', '4']).wave := by
    show env.emptySignal.wave ++ _ = _
    simp only [List.foldl_cons, List.foldl_nil, AudioSignal.operatorPlus_wave, hwave]
    simp [Env.emptySignal, AudioSignal.mk0, mixWave]
  have h1 : MusicComposer.processAll env (MusicComposer.new env) [['C', '4']]
      = some { music := env.emptySignal,
               musicTrack := [env.emptySignal.operatorAnd (env.nm ['C', '4'])],
               currentTrack := 0 } := by
    rw [processAll_singleton, operatorCall_C4_fresh]
  have h2s : MusicComposer.processAll env (MusicComposer.new env) [['C', '4'], ['*', 't', '2']]
      = some { music := env.emptySignal,
               musicTrack := [env.emptySignal.operatorAnd (env.nm ['C', '4']), env.emptySignal],
               currentTrack := 1 } := by
    rw [show ([['C', '4'], ['*', 't', '2']] : List (List Char))
        = [['C', '4']] ++ [['*', 't', '2']] from rfl,
      processAll_append, h1, Option.some_bind, processAll_singleton, operatorCall_t2 env _ h2]
    rfl
  have h3 : MusicComposer.processAll env (MusicComposer.new env)
        [['C', '4'], ['*', 't', '2'], ['E', '4']]
      = some { music := env.emptySignal,
               musicTrack := [env.emptySignal.operatorAnd (env.nm ['C', '4']),
                 env.emptySignal.operatorAnd (env.nm ['E', '4'])],
               currentTrack := 1 } := by
    rw [show ([['C', '4'], ['*', 't', '2'], ['E', '4']] : List (List Char))
        = [['C', '4'], ['*', 't', '2']] ++ [['E', '4']] from rfl,
      processAll_append, h2s, Option.some_bind, processAll_singleton,
      operatorCall_E4_second_track]
  have h4 : MusicComposer.processAll env (MusicComposer.new env)
        [['C', '4'], ['*', 't', '2'], ['E', '4'], ['*', '.']]
      = some (MusicComposer.getMusic env
          { music := env.emptySignal,
            musicTrack := [env.emptySignal.operatorAnd (env.nm ['C', '4']),
              env.emptySignal.operatorAnd (env.nm ['E', '4'])],
            currentTrack := 1 }) := by
    rw [show ([['C', '4'], ['*', 't', '2'], ['E', '4'], ['*', '.']] : List (List Char))
        = [['C', '4'], ['*', 't', '2'], ['E', '4']] ++ [['*', '.']] from rfl,
      processAll_append, h3, Option.some_bind, processAll_singleton, operatorCall_flush]
  refine ⟨h1, hwave _, h2s, rfl, h3, hwave _, _, h4, ?_, ?_, ?_, rfl⟩
  · rw [hmix, AudioSignal.operatorPlus_wave]
  · rw [hmix, mixWave_length]
  · intro hc he k
    rw [hmix]
    exact mixWave_getD _ _ hc he k

theorem scenario_C4_t2_E4_flush_witness :
    sampleEnv.toInt ['2'] = 2 ∧
    (MusicComposer.processAll sampleEnv (MusicComposer.new sampleEnv)
        [['C', '4'], ['*', 't', '2'], ['E', '4'], ['*', '.']]).map
      (fun mc => (mc.music.wave, mc.musicTrack))
      = some ([200, 400, -200, -400], [AudioSignal.mk 8000 16 []]) ∧
    MusicComposer.processAll sampleEnv (MusicComposer.new sampleEnv) [['C', '4']]
      = some { music := sampleEnv.emptySignal,
               musicTrack := [sampleEnv.emptySignal.operatorAnd (sampleEnv.nm ['C', '4'])],
               currentTrack := 0 } :=
  ⟨by decide, by decide, (scenario_C4_t2_E4_flush sampleEnv (by decide)).1⟩

/-! ## The retime commands `*~<N>` and `*=<N>` -/

theorem foldl_min_le_init (xs : List Int) (x : Int) : xs.foldl min x ≤ x := by
  induction xs generalizing x with
  | nil => exact le_refl _
  | cons h t ih => exact le_trans (ih (min x h)) (min_le_left _ _)

theorem foldl_min_le_mem (xs : List Int) (x : Int) : ∀ y ∈ xs, xs.foldl min x ≤ y := by
  induction xs generalizing x with
  | nil => intro y hy; cases hy
  | cons h t ih =>
    intro y hy
    rcases List.mem_cons.1 hy with rfl | hy
    · exact le_trans (foldl_min_le_init t (min x y)) (min_le_right _ _)
    · exact ih (min x h) y hy

theorem foldl_min_mem (xs : List Int) (x : Int) : xs.foldl min x ∈ x :: xs := by
  induction xs generalizing x with
  | nil => simp
  | cons h t ih =>
    have := ih (min x h)
    rcases List.mem_cons.1 this with heq | hmem
    · rw [List.foldl_cons, heq]
      rcases min_choice x h with hx | hh
      · rw [hx]; simp
      · rw [hh]; simp
    · exact List.mem_cons_of_mem _ (List.mem_cons_of_mem _ hmem)

theorem foldl_max_ge_init (xs : List Int) (x : Int) : x ≤ xs.foldl max x := by
  induction xs generalizing x with
  | nil => exact le_refl _
  | cons h t ih => exact le_trans (le_max_left _ _) (ih (max x h))

theorem foldl_max_ge_mem (xs : List Int) (x : Int) : ∀ y ∈ xs, y ≤ xs.foldl max x := by
  induction xs generalizing x with
  | nil => intro y hy; cases hy
  | cons h t ih =>
    intro y hy
    rcases List.mem_cons.1 hy with rfl | hy
    · exact le_trans (le_max_right _ _) (foldl_max_ge_init t (max x y))
    · exact ih (max x h) y hy

theorem foldl_max_mem (xs : List Int) (x : Int) : xs.foldl max x ∈ x :: xs := by
  induction xs generalizing x with
  | nil => simp
  | cons h t ih =>
    have := ih (max x h)
    rcases List.mem_cons.1 this with heq | hmem
    · rw [List.foldl_cons, heq]
      rcases max_choice x h with hx | hh
      · rw [hx]; simp
      · rw [hh]; simp
    · exact List.mem_cons_of_mem _ (List.mem_cons_of_mem _ hmem)

theorem minElement_spec (l : List Int) (hne : l ≠ []) :
    ∃ m, minElement l = some m ∧ m ∈ l ∧ ∀ x ∈ l, m ≤ x := by
  cases l with
  | nil => exact absurd rfl hne
  | cons x xs =>
    refine ⟨xs.foldl min x, rfl, foldl_min_mem xs x, ?_⟩
    intro y hy
    rcases List.mem_cons.1 hy with rfl | hy
    · exact foldl_min_le_init xs y
    · exact foldl_min_le_mem xs x y hy

theorem maxElement_spec (l : List Int) (hne : l ≠ []) :
    ∃ m, maxElement l = some m ∧ m ∈ l ∧ ∀ x ∈ l, x ≤ m := by
  cases l with
  | nil => exact absurd rfl hne
  | cons x xs =>
    refine ⟨xs.foldl max x, rfl, foldl_max_mem xs x, ?_⟩
    intro y hy
    rcases List.mem_cons.1 hy with rfl | hy
    · exact foldl_max_ge_init xs y
    · exact foldl_max_ge_mem xs x y hy

theorem musicDuration_eq (tracks : List AudioSignal) (h : ∀ t ∈ tracks, 0 < t.sampleRate)
    (hfits : ∀ t ∈ tracks, t.millis ≤ 2147483647) :
    musicDuration tracks = some (tracks.map AudioSignal.millis) := by
  induction tracks with
  | nil => rfl
  | cons t ts ih =>
    have hr := h t (List.mem_cons_self _ _)
    have hnarrow : narrowToInt (1000 * (t.wave.length : Int) / t.sampleRate) = t.millis :=
      narrowToInt_of_fits ⟨le_trans (by norm_num) (millis_nonneg t hr),
        hfits t (List.mem_cons_self _ _)⟩
    rw [musicDuration, duration_eq t hr,
      ih (fun u hu => h u (List.mem_cons_of_mem _ hu))
        (fun u hu => hfits u (List.mem_cons_of_mem _ hu))]
    simp only [hnarrow, List.map_cons]

theorem duration_eq_millis (t : AudioSignal) (hr : 0 < t.sampleRate) :
    t.duration = some t.millis :=
  duration_eq t hr

theorem shortestDuration_spec (tracks : List AudioSignal) (hne : tracks ≠ [])
    (h : ∀ t ∈ tracks, 0 < t.sampleRate) (hfits : ∀ t ∈ tracks, t.millis ≤ 2147483647) :
    ∃ target, shortestDuration tracks = some target ∧
      (∃ t ∈ tracks, t.duration = some target) ∧
      ∀ t ∈ tracks, ∃ d, t.duration = some d ∧ target ≤ d := by
  obtain ⟨m, hm, hmem, hle⟩ := minElement_spec
    (tracks.map AudioSignal.millis) (by simpa using hne)
  refine ⟨m, ?_, ?_, ?_⟩
  · unfold shortestDuration
    rw [musicDuration_eq tracks h hfits]
    exact hm
  · obtain ⟨t, ht, hteq⟩ := List.mem_map.1 hmem
    exact ⟨t, ht, by rw [duration_eq_millis t (h t ht), hteq]⟩
  · intro t ht
    exact ⟨_, duration_eq_millis t (h t ht), hle _ (List.mem_map.2 ⟨t, ht, rfl⟩)⟩

theorem longestDuration_spec (tracks : List AudioSignal) (hne : tracks ≠ [])
    (h : ∀ t ∈ tracks, 0 < t.sampleRate) (hfits : ∀ t ∈ tracks, t.millis ≤ 2147483647) :
    ∃ target, longestDuration tracks = some target ∧
      (∃ t ∈ tracks, t.duration = some target) ∧
      ∀ t ∈ tracks, ∃ d, t.duration = some d ∧ d ≤ target := by
  obtain ⟨m, hm, hmem, hle⟩ := maxElement_spec
    (tracks.map AudioSignal.millis) (by simpa using hne)
  refine ⟨m, ?_, ?_, ?_⟩
  · unfold longestDuration
    rw [musicDuration_eq tracks h hfits]
    exact hm
  · obtain ⟨t, ht, hteq⟩ := List.mem_map.1 hmem
    exact ⟨t, ht, by rw [duration_eq_millis t (h t ht), hteq]⟩
  · intro t ht
    exact ⟨_, duration_eq_millis t (h t ht), hle _ (List.mem_map.2 ⟨t, ht, rfl⟩)⟩

theorem changeDurationTo32_of_le (A : AudioSignal) (T : Int) (hr : 0 < A.sampleRate)
    (hT0 : 0 ≤ T) (hle : T ≤ A.millis) (hcur : A.millis ≤ 2147483647)
    (hprod : (A.millis - T) * A.sampleRate ≤ 2147483647) :
    ∃ A1, A.changeDurationTo32 T = some A1 ∧ A1.wave <+: A.wave := by
  have hfit : fitsInt T := ⟨by omega, by omega⟩
  rcases lt_or_eq_of_le hle with hlt | heq
  · have hlen : ((A.millis - T) * A.sampleRate / 1000).toNat ≤ A.wave.length :=
      shrink_count_le_length A T hr hT0
    refine ⟨{ A with
        wave := A.wave.take
          (A.wave.length - ((A.millis - T) * A.sampleRate / 1000).toNat) },
      ?_, List.take_prefix _ _⟩
    rw [changeDurationTo32_shrink_eq A T hr hfit hcur hlt, if_pos hprod, if_pos hlen]
  · exact ⟨A, changeDurationTo32_same A T hr hfit hcur heq.symm, List.prefix_refl _⟩

theorem operatorCall_shorten (env : Env) (mc : MusicComposer) (ent : List Char)
    (hstar : ent.take 1 = ['*']) (hc : ent.getD 1 (Char.ofNat 0) = '~')
    (track : AudioSignal) (d : Int) (h0 : 0 ≤ env.toInt (ent.drop 2) - 1)
    (htrack : mc.musicTrack[(env.toInt (ent.drop 2) - 1).toNat]? = some track)
    (hd : shortestDuration mc.musicTrack = some d) :
    MusicComposer.operatorCall env mc ent
      = (track.changeDurationTo32 d).map (fun track1 => { mc with
          musicTrack := mc.musicTrack.set (env.toInt (ent.drop 2) - 1).toNat track1 }) := by
  have hlt : (env.toInt (ent.drop 2) - 1).toNat < mc.musicTrack.length := by
    by_contra hge
    rw [List.getElem?_eq_none (by omega)] at htrack
    cases htrack
  have hidx : 0 ≤ env.toInt (ent.drop 2) - 1
      ∧ env.toInt (ent.drop 2) - 1 < mc.musicTrack.length := by omega
  unfold MusicComposer.operatorCall
  simp only [hstar, hc, ne_eq, not_true_eq_false, if_false, if_true, vectorAt, h0, htrack, hd,
    vectorSet, hidx, and_self]
  cases track.changeDurationTo32 d <;> rfl

theorem operatorCall_lengthen (env : Env) (mc : MusicComposer) (ent : List Char)
    (hstar : ent.take 1 = ['*']) (hc : ent.getD 1 (Char.ofNat 0) = '=')
    (track : AudioSignal) (d : Int) (h0 : 0 ≤ env.toInt (ent.drop 2) - 1)
    (htrack : mc.musicTrack[(env.toInt (ent.drop 2) - 1).toNat]? = some track)
    (hd : longestDuration mc.musicTrack = some d) :
    MusicComposer.operatorCall env mc ent
      = (track.changeDurationTo32 d).map (fun track1 => { mc with
          musicTrack := mc.musicTrack.set (env.toInt (ent.drop 2) - 1).toNat track1 }) := by
  have hlt : (env.toInt (ent.drop 2) - 1).toNat < mc.musicTrack.length := by
    by_contra hge
    rw [List.getElem?_eq_none (by omega)] at htrack
    cases htrack
  have hidx : 0 ≤ env.toInt (ent.drop 2) - 1
      ∧ env.toInt (ent.drop 2) - 1 < mc.musicTrack.length := by omega
  unfold MusicComposer.operatorCall
  simp only [hstar, hc, ne_eq, not_true_eq_false, if_false, if_true, vectorAt, h0, htrack, hd,
    vectorSet, hidx, and_self]
  cases track.changeDurationTo32 d <;> rfl

theorem retimed_frame (mc : MusicComposer) (i : Nat) (track1 : AudioSignal)
    (hi : i < mc.musicTrack.length) :
    (mc.musicTrack.set i track1)[i]? = some track1 ∧
    (∀ k : Nat, k ≠ i → (mc.musicTrack.set i track1)[k]? = mc.musicTrack[k]?) ∧
    (mc.musicTrack.set i track1).length = mc.musicTrack.length := by
  refine ⟨?_, fun k hk => List.getElem?_set_ne (Ne.symm hk), List.length_set _ _ _⟩
  rw [List.getElem?_set, if_pos rfl, if_pos hi]

/-- The shortest duration of a sixty-second and a ten-second track at 44.1 kHz. -/
theorem shortestDuration_sixty_ten :
    shortestDuration [AudioSignal.mk 44100 16 (List.replicate 2646000 0),
      AudioSignal.mk 44100 16 (List.replicate 441000 0)] = some 10000 := by
  have hrate : ∀ t ∈ [AudioSignal.mk 44100 16 (List.replicate 2646000 0),
      AudioSignal.mk 44100 16 (List.replicate 441000 0)], 0 < t.sampleRate := by
    intro t ht
    rcases List.mem_cons.1 ht with rfl | ht
    · decide
    · rw [List.mem_singleton.1 ht]
      decide
  have hfits : ∀ t ∈ [AudioSignal.mk 44100 16 (List.replicate 2646000 0),
      AudioSignal.mk 44100 16 (List.replicate 441000 0)], t.millis ≤ 2147483647 := by
    intro t ht
    rcases List.mem_cons.1 ht with rfl | ht
    · rw [millis_replicate]
      decide
    · rw [List.mem_singleton.1 ht, millis_replicate]
      decide
  unfold shortestDuration
  rw [musicDuration_eq _ hrate hfits]
  simp only [List.map_cons, List.map_nil, millis_replicate]
  decide

/-- The `int` durations of a track of 2 147 484 samples at 1 Hz and a 2 ms track: the first
duration, `2 147 484 000` ms, is stored as `-2 147 483 296`, which is the minimum found. -/
theorem shortestDuration_wrapped (w : List Int) (hw : w.length = 2147484) :
    (AudioSignal.mk 1 16 w).duration = some 2147484000 ∧
    shortestDuration [AudioSignal.mk 1 16 w, AudioSignal.mk 1000 16 [1, 2]]
      = some (-2147483296) := by
  have hd : (AudioSignal.mk 1 16 w).duration = some 2147484000 := by
    unfold AudioSignal.duration
    simp only [hw]
    decide
  refine ⟨hd, ?_⟩
  have hd2 : (AudioSignal.mk 1000 16 [1, 2]).duration = some 2 := by decide
  unfold shortestDuration
  simp only [musicDuration, hd, hd2]
  decide

/-- Claim C17, as stated, fails in two ways.  With a sixty-second track beside a ten-second
track at 44.1 kHz (two tracks, positive sample rates), `*~1` retimes track 0 from `60000` to
`10000` ms, a removal of `2 205 000` samples that the claim promises to be a prefix cut, but the
`int` product `50000 * 44100` of `changeDurationTo` overflows and the command has no defined
result.  And with a track of `2 147 484 000` ms (2 147 484 samples at 1 Hz) beside a track of
2 ms, `*~2` should retime track 1 to the minimum, its own 2 ms, and change nothing; the longer
duration is stored into an `int` as `-2 147 483 296`, that is the target, and the product
`2 147 483 298 * 1000` overflows. -/
theorem shorten_command_overflow :
    (['*', '~', '1'] : List Char).take 1 = ['*'] ∧
    (['*', '~', '1'] : List Char).getD 1 (Char.ofNat 0) = '~' ∧
    sampleEnv.toInt ((['*', '~', '1'] : List Char).drop 2) = 1 ∧
    (∀ t ∈ [AudioSignal.mk 44100 16 (List.replicate 2646000 0),
        AudioSignal.mk 44100 16 (List.replicate 441000 0)], 0 < t.sampleRate) ∧
    MusicComposer.operatorCall sampleEnv
        (MusicComposer.mk (AudioSignal.mk 8000 16 [])
          [AudioSignal.mk 44100 16 (List.replicate 2646000 0),
            AudioSignal.mk 44100 16 (List.replicate 441000 0)] 0)
        ['*', '~', '1'] = none ∧
    sampleEnv.toInt ((['*', '~', '2'] : List Char).drop 2) = 2 ∧
    (AudioSignal.mk 1 16 (List.replicate 2147484 0)).duration = some 2147484000 ∧
    (AudioSignal.mk 1000 16 [1, 2]).duration = some 2 ∧
    MusicComposer.operatorCall sampleEnv
        (MusicComposer.mk (AudioSignal.mk 8000 16 [])
          [AudioSignal.mk 1 16 (List.replicate 2147484 0), AudioSignal.mk 1000 16 [1, 2]] 0)
        ['*', '~', '2'] = none := by
  refine ⟨by decide, by decide, by decide, ?_, ?_, by decide,
    (shortestDuration_wrapped _ (List.length_replicate _ _)).1, by decide, ?_⟩
  · intro t ht
    rcases List.mem_cons.1 ht with rfl | ht
    · decide
    · rw [List.mem_singleton.1 ht]
      decide
  · rw [operatorCall_shorten sampleEnv
      (MusicComposer.mk (AudioSignal.mk 8000 16 [])
        [AudioSignal.mk 44100 16 (List.replicate 2646000 0),
          AudioSignal.mk 44100 16 (List.replicate 441000 0)] 0)
      ['*', '~', '1'] (by decide) (by decide)
      (AudioSignal.mk 44100 16 (List.replicate 2646000 0)) 10000 (by decide) rfl
      shortestDuration_sixty_ten, retime_sixty_to_ten_seconds]
    rfl
  · have hcall : (AudioSignal.mk 1000 16 [1, 2]).changeDurationTo32 (-2147483296) = none := by
      decide
    rw [operatorCall_shorten sampleEnv
      (MusicComposer.mk (AudioSignal.mk 8000 16 [])
        [AudioSignal.mk 1 16 (List.replicate 2147484 0), AudioSignal.mk 1000 16 [1, 2]] 0)
      ['*', '~', '2'] (by decide) (by decide)
      (AudioSignal.mk 1000 16 [1, 2]) (-2147483296) (by decide) rfl
      (shortestDuration_wrapped _ (List.length_replicate _ _)).2, hcall]
    rfl

/-- Claim C17, amended.  The commands `*~<N>` and `*=<N>` with `1 ≤ N ≤ len(tracks)`, all
tracks having a positive sample rate and a duration within the range of `int`: track `N - 1`
is replaced by `changeDurationTo target` applied to it, `target` being the minimum (for `~`) or
the maximum (for `=`) of `duration` over all current tracks; every other track, the number of
tracks, `activeTrackIndex` and `overall` are unchanged.  For `~`, as long as the `int` products
`(duration (track N - 1) - d) * sampleRate (track N - 1)` for the durations `d` of the tracks
stay within the range of `int`, the call is within its precondition: the new samples are a
prefix of the old ones and the removal count does not exceed the length. -/
theorem retime_commands (env : Env) (mc : MusicComposer) (ent : List Char)
    (hstar : ent.take 1 = ['*'])
    (hN : 1 ≤ env.toInt (ent.drop 2) ∧ env.toInt (ent.drop 2) ≤ mc.musicTrack.length)
    (hrate : ∀ t ∈ mc.musicTrack, 0 < t.sampleRate)
    (hfits : ∀ t ∈ mc.musicTrack, t.millis ≤ 2147483647) :
    ∃ track, mc.musicTrack[(env.toInt (ent.drop 2) - 1).toNat]? = some track ∧
      (ent.getD 1 (Char.ofNat 0) = '~' →
        (∀ t ∈ mc.musicTrack, (track.millis - t.millis) * track.sampleRate ≤ 2147483647) →
        ∃ target track1 mc1,
          shortestDuration mc.musicTrack = some target ∧
          (∃ t ∈ mc.musicTrack, t.duration = some target) ∧
          (∀ t ∈ mc.musicTrack, ∃ d, t.duration = some d ∧ target ≤ d) ∧
          track.changeDurationTo32 target = some track1 ∧
          MusicComposer.operatorCall env mc ent = some mc1 ∧
          mc1.musicTrack[(env.toInt (ent.drop 2) - 1).toNat]? = some track1 ∧
          (∀ k : Nat, k ≠ (env.toInt (ent.drop 2) - 1).toNat →
            mc1.musicTrack[k]? = mc.musicTrack[k]?) ∧
          mc1.musicTrack.length = mc.musicTrack.length ∧
          mc1.currentTrack = mc.currentTrack ∧
          mc1.music = mc.music ∧
          track1.wave <+: track.wave ∧
          ((track.millis - target) * track.sampleRate / 1000).toNat ≤ track.wave.length) ∧
      (ent.getD 1 (Char.ofNat 0) = '=' →
        ∃ target,
          longestDuration mc.musicTrack = some target ∧
          (∃ t ∈ mc.musicTrack, t.duration = some target) ∧
          (∀ t ∈ mc.musicTrack, ∃ d, t.duration = some d ∧ d ≤ target) ∧
          MusicComposer.operatorCall env mc ent
            = (track.changeDurationTo32 target).map (fun track1 => { mc with
                musicTrack := mc.musicTrack.set (env.toInt (ent.drop 2) - 1).toNat track1 }) ∧
          ∀ mc1, MusicComposer.operatorCall env mc ent = some mc1 →
            (∃ track1, track.changeDurationTo32 target = some track1 ∧
              mc1.musicTrack[(env.toInt (ent.drop 2) - 1).toNat]? = some track1) ∧
            (∀ k : Nat, k ≠ (env.toInt (ent.drop 2) - 1).toNat →
              mc1.musicTrack[k]? = mc.musicTrack[k]?) ∧
            mc1.musicTrack.length = mc.musicTrack.length ∧
            mc1.currentTrack = mc.currentTrack ∧
            mc1.music = mc.music) := by
  have h0 : 0 ≤ env.toInt (ent.drop 2) - 1 := by omega
  have hlt : (env.toInt (ent.drop 2) - 1).toNat < mc.musicTrack.length := by omega
  have hne : mc.musicTrack ≠ [] := by
    intro hnil
    rw [hnil] at hlt
    exact Nat.not_lt_zero _ hlt
  have htrack : mc.musicTrack[(env.toInt (ent.drop 2) - 1).toNat]?
      = some (mc.musicTrack[(env.toInt (ent.drop 2) - 1).toNat]) :=
    List.getElem?_eq_getElem hlt
  have hmem : mc.musicTrack[(env.toInt (ent.drop 2) - 1).toNat] ∈ mc.musicTrack :=
    List.getElem_mem _
  have hr := hrate _ hmem
  refine ⟨_, htrack, ?_, ?_⟩
  · intro hc hprod
    obtain ⟨target, htarget, hex, hall⟩ := shortestDuration_spec mc.musicTrack hne hrate hfits
    obtain ⟨t, ht, hdur⟩ := hex
    have htm : t.millis = target := by
      rw [duration_eq_millis t (hrate t ht)] at hdur
      injection hdur
    have hT : 0 ≤ target := by
      rw [← htm]
      exact millis_nonneg t (hrate t ht)
    have hle : target ≤ (mc.musicTrack[(env.toInt (ent.drop 2) - 1).toNat]).millis := by
      obtain ⟨d, hd, hle⟩ := hall _ hmem
      rw [duration_eq_millis _ hr] at hd
      injection hd with hd
      rw [hd]
      exact hle
    have hp := hprod t ht
    rw [htm] at hp
    obtain ⟨track1, hchange, hprefix⟩ :=
      changeDurationTo32_of_le _ target hr hT hle (hfits _ hmem) hp
    obtain ⟨hat, hother, hlen⟩ := retimed_frame mc _ track1 hlt
    refine ⟨target, track1,
      { mc with musicTrack := mc.musicTrack.set (env.toInt (ent.drop 2) - 1).toNat track1 },
      htarget, ⟨t, ht, hdur⟩, hall, hchange, ?_, hat, hother, hlen, rfl, rfl, hprefix,
      shrink_count_le_length _ target hr hT⟩
    rw [operatorCall_shorten env mc ent hstar hc _ target h0 htrack htarget, hchange]
    rfl
  · intro hc
    obtain ⟨target, htarget, hex, hall⟩ := longestDuration_spec mc.musicTrack hne hrate hfits
    have hcall := operatorCall_lengthen env mc ent hstar hc _ target h0 htrack htarget
    refine ⟨target, htarget, hex, hall, hcall, ?_⟩
    intro mc1 hmc1
    rw [hcall] at hmc1
    cases hchange : (mc.musicTrack[(env.toInt (ent.drop 2) - 1).toNat]).changeDurationTo32
        target with
    | none =>
      rw [hchange] at hmc1
      cases hmc1
    | some track1 =>
      rw [hchange] at hmc1
      injection hmc1 with hmc1
      subst hmc1
      obtain ⟨hat, hother, hlen⟩ := retimed_frame mc _ track1 hlt
      exact ⟨⟨track1, rfl, hat⟩, hother, hlen, rfl, rfl⟩

theorem retime_commands_witness :
    (['*', '~', '1'] : List Char).take 1 = ['*'] ∧
    (1 ≤ sampleEnv.toInt ((['*', '~', '1'] : List Char).drop 2) ∧
      sampleEnv.toInt ((['*', '~', '1'] : List Char).drop 2)
        ≤ ([AudioSignal.mk 1000 16 [1, 2, 3], AudioSignal.mk 1000 16 [4]]
            : List AudioSignal).length) ∧
    (∀ t ∈ [AudioSignal.mk 1000 16 [1, 2, 3], AudioSignal.mk 1000 16 [4]],
      0 < t.sampleRate) ∧
    (∀ t ∈ [AudioSignal.mk 1000 16 [1, 2, 3], AudioSignal.mk 1000 16 [4]],
      t.millis ≤ 2147483647) ∧
    MusicComposer.operatorCall sampleEnv
        (MusicComposer.mk (AudioSignal.mk 8000 16 [5])
          [AudioSignal.mk 1000 16 [1, 2, 3], AudioSignal.mk 1000 16 [4]] 0) ['*', '~', '1']
      = some (MusicComposer.mk (AudioSignal.mk 8000 16 [5])
          [AudioSignal.mk 1000 16 [1], AudioSignal.mk 1000 16 [4]] 0) ∧
    MusicComposer.operatorCall sampleEnv
        (MusicComposer.mk (AudioSignal.mk 8000 16 [5])
          [AudioSignal.mk 1000 16 [1, 2, 3], AudioSignal.mk 1000 16 [4, 5]] 0) ['*', '=', '2']
      = some (MusicComposer.mk (AudioSignal.mk 8000 16 [5])
          [AudioSignal.mk 1000 16 [1, 2, 3], AudioSignal.mk 1000 16 [4, 4, 5]] 0) ∧
    ∃ track,
      ([AudioSignal.mk 1000 16 [1, 2, 3], AudioSignal.mk 1000 16 [4]] : List AudioSignal)[
        (sampleEnv.toInt ((['*', '~', '1'] : List Char).drop 2) - 1).toNat]? = some track :=
  ⟨by decide, by decide, by decide, by decide, by decide, by decide,
    (retime_commands sampleEnv
      (MusicComposer.mk (AudioSignal.mk 8000 16 [5])
        [AudioSignal.mk 1000 16 [1, 2, 3], AudioSignal.mk 1000 16 [4]] 0) ['*', '~', '1']
      (by decide) (by decide) (by decide) (by decide)).imp (fun _ h => h.1)⟩

/-! ## Retime at a whole number of samples per millisecond -/

/-- Claim C20.  For a signal whose sample rate is a positive multiple of 1000 and a target
`T ≥ 0` (in the growth case with `delta = (T - duration A) * sampleRate / 1000 ≤ len A`),
`changeDurationTo T` returns a signal whose `duration` is exactly `T`; in the shrink case the
removal count does not exceed `len A`. -/
theorem changeDurationTo_hits_target (A : AudioSignal) (T : Int) (hr : 0 < A.sampleRate)
    (hmult : (1000 : Int) ∣ A.sampleRate) (hT : 0 ≤ T)
    (hpre : 1000 * (A.wave.length : Int) / A.sampleRate < T →
      ((T - 1000 * (A.wave.length : Int) / A.sampleRate) * A.sampleRate / 1000).toNat
        ≤ A.wave.length) :
    A.duration = some (1000 * (A.wave.length : Int) / A.sampleRate) ∧
    (∃ A1, A.changeDurationTo T = some A1 ∧ A1.duration = some T) ∧
    (T < 1000 * (A.wave.length : Int) / A.sampleRate →
      ((1000 * (A.wave.length : Int) / A.sampleRate - T) * A.sampleRate / 1000).toNat
        ≤ A.wave.length) := by
  refine ⟨duration_eq A hr, ?_, fun _ => shrink_count_le_length A T hr hT⟩
  obtain ⟨w, hchange, hdur⟩ :=
    changeDurationTo_exact A T hr hT (Dvd.dvd.mul_left hmult _) hpre
  refine ⟨_, hchange, ?_⟩
  have h := duration_eq { A with wave := w } hr
  rw [h]
  exact congrArg some hdur

theorem changeDurationTo_hits_target_witness :
    (0 : Int) < (AudioSignal.mk 2000 16 [1, 2, 3, 4]).sampleRate ∧
    (1000 : Int) ∣ (AudioSignal.mk 2000 16 [1, 2, 3, 4]).sampleRate ∧
    (AudioSignal.mk 2000 16 [1, 2, 3, 4]).changeDurationTo 3
      = some (AudioSignal.mk 2000 16 [1, 2, 1, 2, 3, 4]) ∧
    (AudioSignal.mk 2000 16 [1, 2, 1, 2, 3, 4]).duration = some 3 ∧
    ∃ A1, (AudioSignal.mk 2000 16 [1, 2, 3, 4]).changeDurationTo 3 = some A1 ∧
      A1.duration = some 3 :=
  ⟨by decide, by decide, by decide, by decide,
    (changeDurationTo_hits_target (AudioSignal.mk 2000 16 [1, 2, 3, 4]) 3 (by decide)
      (by decide) (by decide) (by decide)).2.1⟩

/-! ## Synthesis: the constructor from a frequency -/

theorem synthSample_zero (fp : FloatOps) (amplitude numOfSample : Int) (numOfSineWave : ℚ)
    (hround : fp.round 0 = 0) (hsin : fp.sin 0 = 0) :
    synthSample fp amplitude numOfSample numOfSineWave false 0 = 0 := by
  unfold synthSample
  simp only [Bool.false_eq_true, if_false, Nat.cast_zero, mul_zero, hround, zero_div, ite_self,
    hsin]
  exact (congrArg narrowToSample (doubleToInt_intCast 0)).trans narrowToSample_zero

/-- Claim C18, as stated, fails: at 44100 Hz and 60000 ms (and at 3 000 000 Hz and 1000 ms
for the frequency) the constructor multiplies two `int`s beyond `INT_MAX`, so it has no defined
result, where the claim promises `44100 * 60000 / 1000 = 2 646 000` samples. -/
theorem ofSine_overflow :
    (0 : Int) ≤ 60000 ∧ (0 : Int) ≤ 44100 ∧
    ¬ fitsInt (44100 * 60000) ∧
    (44100 * 60000 / 1000 : Int) = 2646000 ∧
    AudioSignal.ofSine sampleFloatOps 440 60000 1000 44100 16 false = none ∧
    ¬ fitsInt (3000000 * 1000) ∧
    AudioSignal.ofSine sampleFloatOps 3000000 1000 1000 8000 16 false = none := by
  refine ⟨by decide, by decide, by decide, by decide, ?_, by decide, ?_⟩
  · unfold AudioSignal.ofSine
    rw [if_neg (by decide)]
  · unfold AudioSignal.ofSine
    rw [if_neg (by decide)]

theorem ofSine_eq (fp : FloatOps) (freq lenInMills amplitude sampleRate bitsPerSample : Int)
    (decay : Bool) (hfreq : fitsInt (freq * lenInMills))
    (hcount : fitsInt (sampleRate * lenInMills)) :
    AudioSignal.ofSine fp freq lenInMills amplitude sampleRate bitsPerSample decay
      = some { sampleRate := sampleRate, bitsPerSample := bitsPerSample,
               wave := (List.range (Int.tdiv (sampleRate * lenInMills) 1000).toNat).map
                 (synthSample fp amplitude (Int.tdiv (sampleRate * lenInMills) 1000)
                   ((Int.tdiv (freq * lenInMills) 1000 : Int) : ℚ) decay) } := by
  unfold AudioSignal.ofSine
  rw [if_pos ⟨hfreq, hcount⟩]

/-- Claim C18, amended.  For `durationMs ≥ 0` and `sampleRate ≥ 0`, as long as the `int`
products `freq * durationMs` and `sampleRate * durationMs` stay within the range of `int`, the
synthesizing constructor produces exactly `sampleRate * durationMs / 1000` samples and stores
the given sample rate and bit depth, whatever the frequency, the amplitude and the decay flag
are.  For 440 Hz, amplitude 1000, 8000 Hz, 250 ms and no decay these are 2000 samples, and the
first sample is `0` as soon as the floating-point operations round `0` to `0` and have
`sin 0 = 0`. -/
theorem ofSine_sample_count (fp : FloatOps) (freq lenInMills amplitude sampleRate
    bitsPerSample : Int) (decay : Bool) (hlen : 0 ≤ lenInMills) (hrate : 0 ≤ sampleRate)
    (hfreq : fitsInt (freq * lenInMills)) (hcount : sampleRate * lenInMills ≤ 2147483647) :
    (∃ A, AudioSignal.ofSine fp freq lenInMills amplitude sampleRate bitsPerSample decay
        = some A ∧
      ((A.wave.length : Nat) : Int) = sampleRate * lenInMills / 1000 ∧
      A.sampleRate = sampleRate ∧
      A.bitsPerSample = bitsPerSample) ∧
    (∃ A, AudioSignal.ofSine fp 440 250 1000 8000 bitsPerSample false = some A ∧
      A.wave.length = 2000 ∧
      (fp.round 0 = 0 → fp.sin 0 = 0 → A.wave[0]? = some 0)) := by
  have hpos : 0 ≤ sampleRate * lenInMills := mul_nonneg hrate hlen
  have hn : 0 ≤ sampleRate * lenInMills / 1000 := Int.ediv_nonneg hpos (by norm_num)
  have h2000 : Int.tdiv (8000 * 250) 1000 = 2000 := by decide
  constructor
  · refine ⟨_, ofSine_eq fp freq lenInMills amplitude sampleRate bitsPerSample decay hfreq
      ⟨by omega, hcount⟩, ?_, rfl, rfl⟩
    simp only [List.length_map, List.length_range]
    rw [Int.tdiv_eq_ediv hpos (by norm_num), Int.toNat_of_nonneg hn]
  · refine ⟨_, ofSine_eq fp 440 250 1000 8000 bitsPerSample false (by decide) (by decide),
      ?_, ?_⟩
    · simp only [List.length_map, List.length_range, h2000]
      rfl
    · intro hround hsin
      simp only [h2000]
      rw [show (2000 : Int).toNat = 1999 + 1 from rfl, List.range_succ_eq_map]
      simp only [List.map_cons, List.getElem?_cons_zero]
      rw [synthSample_zero fp _ _ _ hround hsin]

theorem ofSine_sample_count_witness :
    (0 : Int) ≤ 250 ∧ (0 : Int) ≤ 8000 ∧ fitsInt (440 * 250) ∧
    (8000 * 250 : Int) ≤ 2147483647 ∧
    (∃ A, AudioSignal.ofSine sampleFloatOps 440 250 1000 8000 16 true = some A ∧
      ((A.wave.length : Nat) : Int) = 8000 * 250 / 1000) ∧
    (∃ A, AudioSignal.ofSine sampleFloatOps 440 250 1000 8000 16 false = some A ∧
      A.wave.length = 2000 ∧ A.wave[0]? = some 0) :=
  ⟨by decide, by decide, by decide, by decide,
    (ofSine_sample_count sampleFloatOps 440 250 1000 8000 16 true (by decide) (by decide)
      (by decide) (by decide)).1.imp (fun _ h => ⟨h.1, h.2.1⟩),
    (ofSine_sample_count sampleFloatOps 440 250 1000 8000 16 false (by decide) (by decide)
      (by decide) (by decide)).2.imp
      (fun _ h => ⟨h.1, h.2.1, h.2.2 rfl (by norm_num [sampleFloatOps])⟩)⟩

end MC
